import Mathlib

/-!
Shallow embedding of `cluegen/__init__.py`: classes generated from type clues.

The Python module synthesizes `__init__`, `__repr__`, `__iter__`, `__eq__`,
`__getitem__`, `__len__` (and, on the frozen variant, `__hash__`) from the
ordered annotations of a class and its bases.  Below, a class body is a
`RawCls` (its `__annotations__` and its plain value bindings); `plainCls`
models an ordinary `Datum`-style class, `frozenMetaNew` models
`FrozenMeta.__new__`, which records per-class defaults and rewrites every
annotated name into a read-only property backed by a hidden
`_cluegen_prop_`-prefixed slot.  Generated method bodies are modelled by
executable Lean functions over an explicit instance state (`Obj`).
-/

/-- Field and attribute names. -/
abbrev Ident := String

/-- Python values appearing as field values and defaults in this development:
integers, strings, and builtin objects (what a bare builtin name such as
`len` denotes; only its name matters here). -/
inductive Value where
  | vInt : Int → Value
  | vStr : String → Value
  | vBuiltin : String → Value
deriving DecidableEq

/-- The source text of a generated parameter default, classified as what the
Python tokenizer makes of it when the generated `def` is executed: an integer
literal, a string literal, or a bare (identifier-like) token that is looked up
as a free name. -/
inductive PyExpr where
  | litInt : Int → PyExpr
  | litStr : String → PyExpr
  | ident : String → PyExpr
deriving DecidableEq

/-- Names resolvable in the namespace of the `exec(code, locs)` call:
`locs` starts empty, but `exec` injects `__builtins__`, so builtin names
resolve.  These are the letter-only names of the Python builtins namespace
(functions, types, constants, warnings and exceptions). -/
def builtinNames : List String :=
  ["len", "int", "str", "abs", "all", "any", "ascii", "bin", "bool", "breakpoint",
    "bytearray", "bytes", "callable", "chr", "classmethod", "compile", "complex",
    "copyright", "credits", "delattr", "dict", "dir", "divmod", "enumerate", "eval",
    "exec", "exit", "filter", "float", "format", "frozenset", "getattr", "globals",
    "hasattr", "hash", "help", "hex", "id", "input", "isinstance", "issubclass",
    "iter", "license", "list", "locals", "map", "max", "memoryview", "min", "next",
    "object", "oct", "open", "ord", "pow", "print", "property", "quit", "range",
    "repr", "reversed", "round", "set", "setattr", "slice", "sorted", "staticmethod",
    "sum", "super", "tuple", "type", "vars", "zip", "aiter", "anext",
    "True", "False", "None", "NotImplemented", "Ellipsis",
    "ArithmeticError", "AssertionError", "AttributeError", "BaseException",
    "BaseExceptionGroup", "BlockingIOError", "BrokenPipeError", "BufferError",
    "BytesWarning", "ChildProcessError", "ConnectionAbortedError", "ConnectionError",
    "ConnectionRefusedError", "ConnectionResetError", "DeprecationWarning", "EOFError",
    "EncodingWarning", "EnvironmentError", "Exception", "ExceptionGroup",
    "FileExistsError", "FileNotFoundError", "FloatingPointError", "FutureWarning",
    "GeneratorExit", "IOError", "ImportError", "ImportWarning", "IndentationError",
    "IndexError", "InterruptedError", "IsADirectoryError", "KeyError",
    "KeyboardInterrupt", "LookupError", "MemoryError", "ModuleNotFoundError",
    "NameError", "NotADirectoryError", "NotImplementedError", "OSError",
    "OverflowError", "PendingDeprecationWarning", "PermissionError",
    "ProcessLookupError", "RecursionError", "ReferenceError", "ResourceWarning",
    "RuntimeError", "RuntimeWarning", "StopAsyncIteration", "StopIteration",
    "SyntaxError", "SyntaxWarning", "SystemError", "SystemExit", "TabError",
    "TimeoutError", "TypeError", "UnboundLocalError", "UnicodeDecodeError",
    "UnicodeEncodeError", "UnicodeError", "UnicodeTranslateError", "UnicodeWarning",
    "UserWarning", "ValueError", "Warning", "ZeroDivisionError"]

/-- The letter-only Python keywords: a default whose text is one of these is
not a name at all (a keyword constant evaluates, any other keyword is a
syntax error). -/
def pyKeywords : List String :=
  ["and", "or", "not", "if", "else", "elif", "while", "for", "in", "is", "def",
    "return", "lambda", "class", "pass", "break", "continue", "import", "from",
    "as", "with", "try", "except", "finally", "raise", "yield", "global",
    "nonlocal", "del", "assert", "async", "await"]

/-- Evaluating a default expression at `def`-execution time.  The `locs`
namespace passed by `cluegen` starts empty, but `exec` injects
`__builtins__`, so a bare name resolves when it is a builtin and raises
`NameError` otherwise (a bare keyword is a `SyntaxError`; both def-time
failures are collapsed into the `none` outcome here). -/
def evalPyExpr : PyExpr → Option Value
  | .litInt n => some (.vInt n)
  | .litStr s => some (.vStr s)
  | .ident s => if s ∈ builtinNames then some (.vBuiltin s) else none

/-- Python `repr` of a value, read back as source text: `repr` of an `int` is
the same integer literal and `repr` of a `str` is a quoted string literal, so
both re-evaluate to an equal value.  (`Datum._gen_init_args` interpolates
defaults with `!r`.) -/
def reprExpr : Value → PyExpr
  | .vInt n => .litInt n
  | .vStr s => .litStr s
  | .vBuiltin b => .ident ("<built-in function " ++ b ++ ">")

/-- ASCII decimal digit test, by code point. -/
def isDigitCh (c : Char) : Bool := decide (48 ≤ c.toNat ∧ c.toNat ≤ 57)

/-- ASCII letter test, by code point. -/
def isLetterCh (c : Char) : Bool :=
  decide ((65 ≤ c.toNat ∧ c.toNat ≤ 90) ∨ (97 ≤ c.toNat ∧ c.toNat ≤ 122))

/-- The single-quote character, by code point. -/
def quoteCh : Char := Char.ofNat 39

/-- Digit run to a number, most significant first. -/
def digitsToNat (cs : List Char) : Nat := cs.foldl (fun n c => n * 10 + (c.toNat - 48)) 0

/-- Python `str` of a value, read back as source text (as
`FrozenDatum._gen_init_args` interpolates defaults, without `!r`): `str` of an
`int` is the same integer literal; `str` of a `str` is its raw characters, so
digit-only text reads as an integer literal, quote-delimited text as a string
literal, a leading minus before digits as a negated literal, and anything else
as a bare token (escape handling inside quoted text is out of scope; the
claims never exercise it). -/
def strExpr : Value → PyExpr
  | .vInt n => .litInt n
  | .vBuiltin b => .ident ("<built-in function " ++ b ++ ">")
  | .vStr s =>
    let cs := s.data
    if cs ≠ [] ∧ cs.all isDigitCh then .litInt (Int.ofNat (digitsToNat cs))
    else if 2 ≤ cs.length ∧ cs.head? = some quoteCh ∧ cs.getLast? = some quoteCh then
      .litStr (String.mk ((cs.drop 1).dropLast))
    else if cs.head? = some '-' ∧ cs.tail ≠ [] ∧ cs.tail.all isDigitCh then
      .litInt (-(Int.ofNat (digitsToNat cs.tail)))
    else .ident s

/-- First value bound to a key in an association list (Python `dict` lookup,
for the lists below whose keys are unique). -/
def alookup {α : Type} : List (Ident × α) → Ident → Option α
  | [], _ => none
  | p :: ps, k => if p.1 = k then some p.2 else alookup ps k

/-- Python `dict` assignment `d[k] = v`: an existing key keeps its position and
gets the new value, a new key is appended. -/
def updateEntry {α : Type} (m : List (Ident × α)) (k : Ident) (v : α) : List (Ident × α) :=
  if (alookup m k).isSome then m.map (fun p => if p.1 = k then (k, v) else p)
  else m ++ [(k, v)]

/-- One `dict` assignment step, folded below. -/
def updStep {α : Type} (acc : List (Ident × α)) (p : Ident × α) : List (Ident × α) :=
  updateEntry acc p.1 p.2

/-- Python `dict.update`: assign every pair of `ns` into `m`, in order. -/
def dictUpdate {α : Type} (m ns : List (Ident × α)) : List (Ident × α) :=
  ns.foldl updStep m

/-- Left-biased choice on options. -/
def oElse {α : Type} : Option α → Option α → Option α
  | some x, _ => some x
  | none, b => b

/-- Value of the last pair bound to a key. -/
def lastAssoc {α : Type} (l : List (Ident × α)) (k : Ident) : Option α := alookup l.reverse k

/-- One step of first-occurrence deduplication. -/
def dedupStep (acc : List Ident) (k : Ident) : List Ident :=
  if k ∈ acc then acc else acc ++ [k]

/-- Keys in first-occurrence order, duplicates dropped. -/
def dedupFirst (ks : List Ident) : List Ident := ks.foldl dedupStep []

/-- A class-dict entry relevant to field machinery: a read-only property
installed by `FrozenMeta`, or a plain class attribute (e.g. an inline
default). -/
inductive ClsAttr where
  | prop : ClsAttr
  | value : Value → ClsAttr
deriving DecidableEq

/-- A class body as written: its name, its ordered `__annotations__`
(name, declared type), and the plain value bindings of its namespace. -/
structure RawCls where
  name : String
  anns : List (Ident × String)
  body : List (Ident × Value)
deriving DecidableEq

/-- A finalized class: name, annotations, effective class dict, and the entry
`FrozenMeta._cluegen_defaults_` holds for it (empty for non-frozen classes). -/
structure ProcCls where
  name : String
  anns : List (Ident × String)
  dict : List (Ident × ClsAttr)
  defaults : List (Ident × Value)
deriving DecidableEq

/-- An ordinary (mutable, `Datum`-style) class: the namespace is kept as-is and
`FrozenMeta._cluegen_defaults_` has no entry for it. -/
def plainCls (r : RawCls) : ProcCls :=
  ⟨r.name, r.anns, r.body.map (fun p => (p.1, ClsAttr.value p.2)), []⟩

/-- The `defaults` dict built by `FrozenMeta.__new__`: for each annotated name
present in the class namespace, its bound value. -/
def classDefaults (body : List (Ident × Value)) : List (Ident × String) → List (Ident × Value)
  | [] => []
  | a :: as =>
    match alookup body a.1 with
    | some v => (a.1, v) :: classDefaults body as
    | none => classDefaults body as

/-- The `FrozenMeta.__new__` transformation: record defaults for annotated
names bound in the namespace, then replace every annotated name's class-dict
entry with a property reading the hidden `_cluegen_prop_`-prefixed slot. -/
def frozenMetaNew (r : RawCls) : ProcCls :=
  ⟨r.name, r.anns,
    dictUpdate (r.body.map (fun p => (p.1, ClsAttr.value p.2)))
      (r.anns.map (fun a => (a.1, ClsAttr.prop))),
    classDefaults r.body r.anns⟩

/-- An mro, most derived class first, as `cls.__mro__` lists it.  Machinery
tail classes (`Datum`, `DatumBase`, `object`) carry no annotations and no
field-named attributes, so they are omitted from the modelled chains. -/
abbrev Mro := List ProcCls

/-- The function `all_clues`: walk `reversed(cls.__mro__)` and `dict.update`
each class's `__annotations__` into one ordered dict.  (For a class without
its own `__annotations__`, `getattr` finds the nearest ancestor's dict; as the
ancestor was merged already, re-merging it changes nothing, so using each
class's own annotations is equivalent.) -/
def all_clues (mro : Mro) : List (Ident × String) :=
  mro.reverse.foldl (fun acc c => dictUpdate acc c.anns) []

/-- The ordered field names of a class, as the generated methods enumerate
them. -/
def fieldNames (mro : Mro) : List Ident := (all_clues mro).map Prod.fst

/-- The inheritance-resolved declaration sequence: every class's annotation
pairs, most-base class first. -/
def declSeq (mro : Mro) : List (Ident × String) := (mro.reverse.map (fun c => c.anns)).flatten

/-- Modelled from the spec wording for the field collector: fold the
declarations base to derived into one ordered mapping, a later declaration of
an already-seen name overriding the earlier entry's value in place, new names
appended. -/
def specMerge {α : Type} (l : List (Ident × α)) : List (Ident × α) := l.foldl updStep []

/-- The function `FrozenMeta.get_defaults`: start from an empty dict and
`update` with each class's recorded defaults walking `cls.__mro__` in its own
order, i.e. most derived first. -/
def get_defaults (mro : Mro) : List (Ident × Value) :=
  mro.foldl (fun acc c => dictUpdate acc c.defaults) []

/-- Attribute lookup on a type: first class dict along the mro that binds the
name. -/
def typeLookup : Mro → Ident → Option ClsAttr
  | [], _ => none
  | c :: rest, n =>
    match alookup c.dict n with
    | some a => some a
    | none => typeLookup rest n

/-- An instance: its class (as an mro) and its instance `__dict__`. -/
structure Obj where
  mro : Mro
  attrs : List (Ident × Value)
deriving DecidableEq

/-- The hidden-slot prefix `FrozenMeta._cluegen_prop_store_prefix_`. -/
def storePfx : String := "_cluegen_prop_"

/-- Name of the concrete runtime type, `type(self).__name__`. -/
def clsName (o : Obj) : String :=
  match o.mro with
  | [] => ""
  | c :: _ => c.name

/-- The message raised by `_frozen_error`, which names the concrete runtime
type with `!r`. -/
def frozenErrorMsg (t : String) : String :=
  "can\x27t set/del attr on FrozenDatum type \x27" ++ t ++ "\x27"

/-- Instance attribute read.  A property found on the type wins over the
instance dict and reads the hidden prefixed slot (as the property closures
installed by `FrozenMeta.__new__` do); a plain class attribute is shadowed by
the instance dict; otherwise the read is an `AttributeError`. -/
def instGetattr (o : Obj) (n : Ident) : Except String Value :=
  match typeLookup o.mro n with
  | some .prop =>
    match alookup o.attrs (storePfx ++ n) with
    | some v => .ok v
    | none => .error "AttributeError"
  | some (.value v) => .ok ((alookup o.attrs n).getD v)
  | none =>
    match alookup o.attrs n with
    | some v => .ok v
    | none => .error "AttributeError"

/-- Instance attribute write.  A property found on the type routes to its
setter, which is `_frozen_error`; otherwise the instance dict is updated. -/
def instSetattr (o : Obj) (n : Ident) (v : Value) : Except String Obj :=
  match typeLookup o.mro n with
  | some .prop => .error (frozenErrorMsg (clsName o))
  | _ => .ok ⟨o.mro, updateEntry o.attrs n v⟩

/-- Instance attribute delete.  A property routes to its deleter, which is
`_frozen_error`; otherwise the name is removed from the instance dict if
present. -/
def instDelattr (o : Obj) (n : Ident) : Except String Obj :=
  match typeLookup o.mro n with
  | some .prop => .error (frozenErrorMsg (clsName o))
  | _ =>
    match alookup o.attrs n with
    | some _ => .ok ⟨o.mro, o.attrs.filter (fun p => !(p.1 == n))⟩
    | none => .error "AttributeError"

/-- One parameter of a generated `__init__`: its name and, if present, the
source text of its default. -/
structure Param where
  name : Ident
  default : Option PyExpr
deriving DecidableEq

/-- `Datum._gen_init_args`: each clue name becomes a parameter; if the class
has an attribute of that name (an inherited or own inline default) the
parameter default is that attribute's `repr`.  (`repr` of a property object,
which arises only on mixed frozen chains, is not valid source and is modelled
as a free token.  The `MemberDescriptorType` exclusion concerns `__slots__`
members, which do not occur in the modelled chains.) -/
def datumGenInitParams (mro : Mro) : List Param :=
  (fieldNames mro).map fun n =>
    match typeLookup mro n with
    | some (.value v) => ⟨n, some (reprExpr v)⟩
    | some .prop => ⟨n, some (.ident "<property object>")⟩
    | none => ⟨n, none⟩

/-- `FrozenDatum._gen_init_args`: a clue with an entry in the merged default
table gets that default interpolated with plain `str`, others are bare
parameters. -/
def frozenGenInitParams (mro : Mro) : List Param :=
  (fieldNames mro).map fun n =>
    match alookup (get_defaults mro) n with
    | some v => ⟨n, some (strExpr v)⟩
    | none => ⟨n, none⟩

/-- Compiling the generated `def`: a parameter without a default may not
follow one with a default, else the `exec` raises `SyntaxError`. -/
def defaultsWellOrdered : List Param → Bool
  | [] => true
  | p :: ps =>
    match p.default with
    | none => defaultsWellOrdered ps
    | some _ => ps.all (fun q => q.default.isSome)

/-- Evaluating all parameter defaults at `def`-execution time, left to right;
the first failing default aborts the `exec` (`NameError`). -/
def evalParams : List Param → Option (List (Ident × Option Value))
  | [] => some []
  | p :: ps =>
    match p.default with
    | none => (evalParams ps).map (fun r => (p.name, none) :: r)
    | some e =>
      match evalPyExpr e with
      | some v => (evalParams ps).map (fun r => (p.name, some v) :: r)
      | none => none

/-- Positional call binding: provided arguments fill parameters left to right,
remaining parameters take their defaults, a missing value for a default-less
parameter or a surplus argument is a `TypeError`. -/
def bindPositional : List (Ident × Option Value) → List Value → Option (List (Ident × Value))
  | [], [] => some []
  | [], _ :: _ => none
  | (n, _) :: ps, a :: as => (bindPositional ps as).map (fun r => (n, a) :: r)
  | (n, d) :: ps, [] =>
    match d with
    | some v => (bindPositional ps []).map (fun r => (n, v) :: r)
    | none => none

/-- The generated `__init__` body: one `setattr` per bound parameter, in
order. -/
def writeAttrs : Obj → List (Ident × Value) → Except String Obj
  | o, [] => .ok o
  | o, p :: ps =>
    match instSetattr o p.1 p.2 with
    | .ok o2 => writeAttrs o2 ps
    | .error e => .error e

/-- First use of the generated constructor: compile the generated `def`
(default ordering check, then default evaluation), bind the call's positional
arguments, and run the body, which assigns each parameter to
`self.{pfx}{name}`. -/
def constructWith (ps : List Param) (mro : Mro) (pfx : String) (args : List Value) :
    Except String Obj :=
  if defaultsWellOrdered ps = false then
    .error "SyntaxError: non-default argument follows default argument"
  else
    match evalParams ps with
    | none => .error "NameError: free name in a generated default"
    | some pd =>
      match bindPositional pd args with
      | none => .error "TypeError: bad arguments to generated init"
      | some bound => writeAttrs ⟨mro, []⟩ (bound.map (fun p => (pfx ++ p.1, p.2)))

/-- Constructing a `Datum`-variant instance: `Datum._gen_init_body` assigns to
the public names. -/
def datumConstruct (mro : Mro) (args : List Value) : Except String Obj :=
  constructWith (datumGenInitParams mro) mro "" args

/-- Constructing a `FrozenDatum`-variant instance: `FrozenDatum._gen_init_body`
assigns to the hidden `_cluegen_prop_`-prefixed slots. -/
def frozenConstruct (mro : Mro) (args : List Value) : Except String Obj :=
  constructWith (frozenGenInitParams mro) mro storePfx args

/-- Sequencing attribute reads, first error wins (Python evaluation order). -/
def exAll (f : Ident → Except String Value) : List Ident → Except String (List Value)
  | [] => .ok []
  | n :: ns =>
    match f n with
    | .error e => .error e
    | .ok v =>
      match exAll f ns with
      | .error e => .error e
      | .ok vs => .ok (v :: vs)

/-- The tuple of an instance's field values in clue order, as the generated
`__eq__`, `__hash__` and `__iter__` read them. -/
def fieldValues (o : Obj) : Except String (List Value) :=
  exAll (instGetattr o) (fieldNames o.mro)

/-- The source lines of the generated `__iter__` body: one `yield` per clue,
each indented THREE spaces exactly as `Datum.__iter__` writes them
(`f-string` with three leading blanks), followed by the FOUR-space
`    pass` line `cluegen.__get__` appends to every generated body. -/
def iterBodyLines (clues : List Ident) : List (Nat × String) :=
  clues.map (fun n => (3, "yield self." ++ n)) ++ [(4, "pass")]

/-- Python block compilation for the flat suites generated here: every
statement of the suite must match the first statement's indentation; a
differently indented line after a non-block statement is an
`IndentationError`. -/
def suiteIndentOk : List (Nat × String) → Bool
  | [] => true
  | (i, _) :: rest => rest.all (fun p => p.1 == i)

/-- First use of the generated `__iter__`.  `exec` first compiles the
generated source: with at least one clue the three-space `yield` lines are
followed by the four-space `pass`, so compilation raises `IndentationError`
and the access fails.  With no clue the source compiles but contains no
`yield`, so the method is a plain function returning `None` and `iter()`
raises `TypeError`.  Only if both hurdles were passed would the yields read
the fields back in clue order. -/
def datumIter (o : Obj) : Except String (List Value) :=
  if suiteIndentOk (iterBodyLines (fieldNames o.mro)) = false then
    .error "IndentationError: unexpected indent"
  else if fieldNames o.mro = [] then .error "TypeError: iter() returned non-iterator"
  else fieldValues o

/-- Python tuple indexing, as `tuple(all_clues(cls))[item]` behaves: a
negative index counts from the end, an index out of `[-len, len)` raises
`IndexError` (modelled as `none`). -/
def pyTupleGet {α : Type} (l : List α) (i : Int) : Option α :=
  if 0 ≤ i then l.get? i.toNat
  else if 0 ≤ i + l.length then l.get? (i + l.length).toNat
  else none

/-- The generated `__getitem__`: `getattr(self, tuple(all_clues(cls))[item])`. -/
def datumGetitem (o : Obj) (i : Int) : Except String Value :=
  match pyTupleGet (fieldNames o.mro) i with
  | some n => instGetattr o n
  | none => .error "IndexError: tuple index out of range"

/-- The generated `__len__`: the clue count, fixed at synthesis time. -/
def datumLen (mro : Mro) : Nat := (fieldNames mro).length

/-- The generated `__eq__`: on the identical concrete class, compare the
tuples of field values positionally (the zero-field case compares
`(None,) == (None,)`, i.e. two empty field tuples); on different classes the
result is `NotImplemented`, modelled as `none`, deferring to the host's
equality fallback. -/
def datumEq (a b : Obj) : Except String (Option Bool) :=
  if a.mro = b.mro then
    match fieldValues a with
    | .error e => .error e
    | .ok xs =>
      match exAll (instGetattr b) (fieldNames a.mro) with
      | .error e => .error e
      | .ok ys => .ok (some (decide (xs = ys)))
  else .ok none

/-- A deterministic stand-in for CPython's value hash; only that it is a
function of the value matters. -/
def pyHashValue : Value → Int
  | .vInt n => n
  | .vStr s => s.data.foldl (fun h c => h * 31 + (c.toNat : Int)) 7
  | .vBuiltin b => b.data.foldl (fun h c => h * 37 + (c.toNat : Int)) 11

/-- A deterministic stand-in for CPython's tuple hash: a function of the value
sequence. -/
def pyHashTuple (vs : List Value) : Int :=
  vs.foldl (fun h v => h * 1000003 + pyHashValue v) (Int.ofNat vs.length)

/-- The generated `FrozenDatum.__hash__`: the hash of the tuple of field
values in clue order (`hash(())` in the zero-field case). -/
def frozenHash (o : Obj) : Except String Int :=
  match fieldValues o with
  | .error e => .error e
  | .ok vs => .ok (pyHashTuple vs)

/-- First generated parameter with a given name. -/
def paramFor : List Param → Ident → Option Param
  | [], _ => none
  | p :: ps, f => if p.name = f then some p else paramFor ps f

/-- The `__hash__` slot a class body contributes: defining `__hash__` keeps
hashing; defining `__eq__` without `__hash__` sets `__hash__ = None` at class
creation (the host rule Python applies to `Datum`); otherwise the body is
silent. -/
inductive HashSlot where
  | disabled : HashSlot
  | defined : HashSlot
deriving DecidableEq

/-- The hash slot contributed by one class body, given the names its namespace
defines. -/
def classHashSlot (body : List String) : Option HashSlot :=
  if "__hash__" ∈ body then some .defined
  else if "__eq__" ∈ body then some .disabled
  else none

/-- The `__hash__` an instance resolves to: the first mro body contributing a
slot. -/
def resolvedHash : List (List String) → Option HashSlot
  | [] => none
  | b :: rest =>
    match classHashSlot b with
    | some s => some s
    | none => resolvedHash rest

/-- Names defined in the `Datum` class body (its cluegen descriptors and
generator helpers; no `__hash__`). -/
def datumClassBody : List String :=
  ["__init__", "_gen_init_args", "_gen_init_body", "__repr__", "__iter__", "__eq__",
    "__getitem__", "__len__"]

/-- Names defined in the `DatumBase` class body. -/
def datumBaseClassBody : List String := ["__slots__", "_methods", "__init_subclass__"]

/-- Names defined in the `FrozenDatum` class body (its `__hash__` cluegen
descriptor and generator helpers). -/
def frozenDatumClassBody : List String := ["_gen_init_args", "_gen_init_body", "__hash__"]

/-- The slots `builtins.object` defines that matter here. -/
def objectClassBody : List String := ["__eq__", "__hash__", "__repr__", "__init__"]

/-- Body-name mro of a field-declaring subclass of `Datum` (its own namespace
defines no dunder methods). -/
def pointDatumHashMro : List (List String) :=
  [[], datumClassBody, datumBaseClassBody, objectClassBody]

/-- Body-name mro of a field-declaring subclass of `FrozenDatum`. -/
def pointFrozenHashMro : List (List String) :=
  [[], frozenDatumClassBody, datumClassBody, datumBaseClassBody, objectClassBody]

/-- Memoization state of one `(type, operation)` pair: whether the generated
method has been installed on the class dict, and an instrumentation counter of
how many times synthesis ran. -/
structure GenCell where
  installed : Bool
  counter : Nat
deriving DecidableEq

/-- One attribute access through the cluegen machinery: if the method is
already installed the descriptor is no longer consulted; otherwise `__get__`
synthesizes the implementation and `setattr`s it onto the class. -/
def genAccess (s : GenCell) : GenCell :=
  if s.installed then s else ⟨true, s.counter + 1⟩

/-- Progress of one thread through an access: not yet looked up the method,
looked it up (recording whether it found an installed method), or finished. -/
inductive TPhase where
  | start : TPhase
  | checked : Bool → TPhase
  | fin : TPhase
deriving DecidableEq

/-- Shared cell plus the phases of two racing threads. -/
structure RaceState where
  cell : GenCell
  t1 : TPhase
  t2 : TPhase
deriving DecidableEq

/-- One step of one thread: the lookup reads `installed`; the second step,
when the lookup found no installed method, runs synthesis and installs (the
`__get__` body takes no lock between the lookup and the `setattr`). -/
def phaseStep (cell : GenCell) : TPhase → TPhase × GenCell
  | .start => (.checked cell.installed, cell)
  | .checked saw =>
    if saw then (.fin, cell) else (.fin, ⟨true, cell.counter + 1⟩)
  | .fin => (.fin, cell)

/-- Interleaved execution: `true` steps thread 1, `false` steps thread 2. -/
def raceStep (who : Bool) (s : RaceState) : RaceState :=
  if who then
    let r := phaseStep s.cell s.t1
    ⟨r.2, r.1, s.t2⟩
  else
    let r := phaseStep s.cell s.t2
    ⟨r.2, s.t1, r.1⟩

/-- Run a schedule from a state. -/
def runSched (sched : List Bool) (s : RaceState) : RaceState :=
  sched.foldl (fun st w => raceStep w st) s

/-- Both threads about to make their first access to a never-synthesized
operation. -/
def raceInit : RaceState := ⟨⟨false, 0⟩, .start, .start⟩


/-! Association-list lemmas. -/

theorem alookup_append {α : Type} (xs ys : List (Ident × α)) (k : Ident) :
    alookup (xs ++ ys) k = oElse (alookup xs k) (alookup ys k) := by
  induction xs with
  | nil => simp [alookup, oElse]
  | cons p ps ih =>
    by_cases h : p.1 = k <;> simp [alookup, h, oElse, ih]

theorem alookup_isSome_iff {α : Type} (m : List (Ident × α)) (k : Ident) :
    (alookup m k).isSome = true ↔ k ∈ m.map Prod.fst := by
  induction m with
  | nil => simp [alookup]
  | cons p ps ih =>
    simp only [alookup, List.map_cons, List.mem_cons]
    by_cases h : p.1 = k
    · simp [h]
    · simp only [h, if_false, ih]
      constructor
      · exact Or.inr
      · rintro (hk | hk)
        · exact absurd hk.symm h
        · exact hk

theorem alookup_mapset_self {α : Type} (m : List (Ident × α)) (k : Ident) (v : α)
    (h : (alookup m k).isSome = true) :
    alookup (m.map (fun p => if p.1 = k then (k, v) else p)) k = some v := by
  induction m with
  | nil => simp [alookup] at h
  | cons p ps ih =>
    by_cases hp : p.1 = k
    · simp [alookup, hp]
    · simp only [alookup, hp, if_false] at h
      simpa [alookup, hp] using ih h

theorem alookup_mapset_ne {α : Type} (m : List (Ident × α)) (k : Ident) (v : α) (k' : Ident)
    (h : k' ≠ k) :
    alookup (m.map (fun p => if p.1 = k then (k, v) else p)) k' = alookup m k' := by
  induction m with
  | nil => rfl
  | cons p ps ih =>
    by_cases hp : p.1 = k
    · simp only [List.map_cons, if_pos hp, alookup]
      rw [if_neg (show ¬ ((k, v).1 = k') from Ne.symm h), if_neg (hp ▸ Ne.symm h), ih]
    · simp only [List.map_cons, if_neg hp, alookup]
      rw [ih]

theorem alookup_updateEntry_self {α : Type} (m : List (Ident × α)) (k : Ident) (v : α) :
    alookup (updateEntry m k v) k = some v := by
  unfold updateEntry
  by_cases h : (alookup m k).isSome = true
  · rw [if_pos h]
    exact alookup_mapset_self m k v h
  · have hn : alookup m k = none := by
      cases he : alookup m k with
      | none => rfl
      | some w => rw [he] at h; simp at h
    rw [if_neg h, alookup_append, hn]
    simp [oElse, alookup]

theorem alookup_updateEntry_ne {α : Type} (m : List (Ident × α)) (k : Ident) (v : α)
    (k' : Ident) (h : k' ≠ k) : alookup (updateEntry m k v) k' = alookup m k' := by
  unfold updateEntry
  by_cases hs : (alookup m k).isSome = true
  · rw [if_pos hs]
    exact alookup_mapset_ne m k v k' h
  · rw [if_neg hs, alookup_append]
    cases he : alookup m k' with
    | some w => simp [oElse]
    | none => simp [oElse, alookup, Ne.symm h]

theorem keys_mapset {α : Type} (m : List (Ident × α)) (k : Ident) (v : α) :
    (m.map (fun p => if p.1 = k then (k, v) else p)).map Prod.fst = m.map Prod.fst := by
  induction m with
  | nil => rfl
  | cons p ps ih =>
    by_cases hp : p.1 = k
    · simp only [List.map_cons, if_pos hp, ih]
      rw [← hp]
    · simp [if_neg hp, ih]

theorem keys_updateEntry {α : Type} (m : List (Ident × α)) (k : Ident) (v : α) :
    (updateEntry m k v).map Prod.fst =
      if k ∈ m.map Prod.fst then m.map Prod.fst else m.map Prod.fst ++ [k] := by
  unfold updateEntry
  by_cases hs : (alookup m k).isSome = true
  · rw [if_pos hs, keys_mapset, if_pos ((alookup_isSome_iff m k).mp hs)]
  · have hm : ¬ k ∈ m.map Prod.fst := fun hmem => hs ((alookup_isSome_iff m k).mpr hmem)
    rw [if_neg hs, List.map_append, if_neg hm]
    rfl

theorem oElse_none {α : Type} (a : Option α) : oElse a none = a := by
  cases a <;> rfl

theorem oElse_assoc {α : Type} (a b c : Option α) :
    oElse (oElse a b) c = oElse a (oElse b c) := by
  cases a <;> rfl

theorem lastAssoc_cons {α : Type} (p : Ident × α) (l : List (Ident × α)) (k : Ident) :
    lastAssoc (p :: l) k = oElse (lastAssoc l k) (if p.1 = k then some p.2 else none) := by
  unfold lastAssoc
  rw [List.reverse_cons, alookup_append]
  congr 1

theorem alookup_foldl_upd {α : Type} (l m : List (Ident × α)) (k : Ident) :
    alookup (l.foldl updStep m) k = oElse (lastAssoc l k) (alookup m k) := by
  induction l generalizing m with
  | nil => simp [lastAssoc, alookup, oElse]
  | cons p ps ih =>
    rw [List.foldl_cons, ih, lastAssoc_cons, oElse_assoc]
    congr 1
    by_cases h : p.1 = k
    · subst h
      rw [if_pos rfl]
      show alookup (updateEntry m p.1 p.2) p.1 = oElse (some p.2) (alookup m p.1)
      rw [alookup_updateEntry_self]
      rfl
    · rw [if_neg h]
      show alookup (updateEntry m p.1 p.2) k = oElse none (alookup m k)
      rw [alookup_updateEntry_ne m p.1 p.2 k (fun hc => h hc.symm)]
      rfl

theorem alookup_dictUpdate {α : Type} (m ns : List (Ident × α)) (k : Ident) :
    alookup (dictUpdate m ns) k = oElse (lastAssoc ns k) (alookup m k) :=
  alookup_foldl_upd ns m k

theorem keys_foldl_upd {α : Type} (l m : List (Ident × α)) :
    (l.foldl updStep m).map Prod.fst = (l.map Prod.fst).foldl dedupStep (m.map Prod.fst) := by
  induction l generalizing m with
  | nil => rfl
  | cons p ps ih =>
    rw [List.foldl_cons, List.map_cons, List.foldl_cons, ih]
    congr 1
    show (updateEntry m p.1 p.2).map Prod.fst = dedupStep (m.map Prod.fst) p.1
    rw [keys_updateEntry]
    rfl

theorem mem_dedupFold (ks : List Ident) (acc : List Ident) (k : Ident) :
    k ∈ ks.foldl dedupStep acc ↔ k ∈ acc ∨ k ∈ ks := by
  induction ks generalizing acc with
  | nil => simp
  | cons a as ih =>
    rw [List.foldl_cons, ih]
    unfold dedupStep
    by_cases h : a ∈ acc
    · simp only [h, if_true, List.mem_cons]
      constructor
      · rintro (hk | hk)
        · exact Or.inl hk
        · exact Or.inr (Or.inr hk)
      · rintro (hk | hk | hk)
        · exact Or.inl hk
        · exact Or.inl (hk ▸ h)
        · exact Or.inr hk
    · simp only [h, if_false, List.mem_append, List.mem_singleton, List.mem_cons]
      tauto

theorem nodup_dedupFold (ks : List Ident) (acc : List Ident) (h : acc.Nodup) :
    (ks.foldl dedupStep acc).Nodup := by
  induction ks generalizing acc with
  | nil => exact h
  | cons a as ih =>
    rw [List.foldl_cons]
    unfold dedupStep
    by_cases ha : a ∈ acc
    · simp only [ha, if_true]
      exact ih acc h
    · simp only [ha, if_false]
      refine ih _ ?_
      simp [List.nodup_append, h, ha]

/-! Characterization of the clue merge. -/

theorem foldl_dictUpdate_flatten {α : Type} (ls : List (List (Ident × α)))
    (m : List (Ident × α)) : ls.foldl dictUpdate m = ls.flatten.foldl updStep m := by
  induction ls generalizing m with
  | nil => rfl
  | cons l ls ih =>
    rw [List.foldl_cons, ih, List.flatten_cons, List.foldl_append]
    rfl

theorem all_clues_eq_specMerge (mro : Mro) : all_clues mro = specMerge (declSeq mro) := by
  unfold all_clues specMerge declSeq
  rw [← foldl_dictUpdate_flatten, List.foldl_map]

theorem keys_specMerge {α : Type} (l : List (Ident × α)) :
    (specMerge l).map Prod.fst = dedupFirst (l.map Prod.fst) := by
  unfold specMerge dedupFirst
  rw [keys_foldl_upd]
  rfl

theorem alookup_specMerge {α : Type} (l : List (Ident × α)) (k : Ident) :
    alookup (specMerge l) k = lastAssoc l k := by
  unfold specMerge
  rw [alookup_foldl_upd]
  cases lastAssoc l k <;> rfl

theorem fieldNames_eq_dedup (mro : Mro) :
    fieldNames mro = dedupFirst ((declSeq mro).map Prod.fst) := by
  unfold fieldNames
  rw [all_clues_eq_specMerge, keys_specMerge]

theorem fieldNames_nodup (mro : Mro) : (fieldNames mro).Nodup := by
  rw [fieldNames_eq_dedup]
  exact nodup_dedupFold _ _ List.nodup_nil

theorem mem_dedupFirst (ks : List Ident) (k : Ident) : k ∈ dedupFirst ks ↔ k ∈ ks := by
  unfold dedupFirst
  rw [mem_dedupFold]
  simp

theorem mem_fieldNames (mro : Mro) (n : Ident) :
    n ∈ fieldNames mro ↔ ∃ c ∈ mro, n ∈ c.anns.map Prod.fst := by
  rw [fieldNames_eq_dedup, mem_dedupFirst]
  unfold declSeq
  constructor
  · intro h
    rcases List.mem_map.mp h with ⟨p, hp, rfl⟩
    rcases List.mem_flatten.mp hp with ⟨l, hl, hpl⟩
    rcases List.mem_map.mp hl with ⟨c, hc, rfl⟩
    exact ⟨c, List.mem_reverse.mp hc, List.mem_map.mpr ⟨p, hpl, rfl⟩⟩
  · rintro ⟨c, hc, hmem⟩
    rcases List.mem_map.mp hmem with ⟨p, hp, rfl⟩
    refine List.mem_map.mpr ⟨p, ?_, rfl⟩
    exact List.mem_flatten.mpr ⟨c.anns, List.mem_map.mpr ⟨c, List.mem_reverse.mpr hc, rfl⟩, hp⟩

/-! Lookup facts used to read constructed instances back. -/

theorem alookup_eq_none {α : Type} (l : List (Ident × α)) (k : Ident)
    (h : ¬ k ∈ l.map Prod.fst) : alookup l k = none := by
  cases he : alookup l k with
  | none => rfl
  | some v => exact absurd ((alookup_isSome_iff l k).mp (by rw [he]; rfl)) h

theorem not_mem_of_alookup_none {α : Type} (l : List (Ident × α)) (k : Ident)
    (h : alookup l k = none) : ¬ k ∈ l.map Prod.fst := by
  intro hm
  have := (alookup_isSome_iff l k).mpr hm
  rw [h] at this
  cases this

theorem alookup_of_mem_nodup {α : Type} (l : List (Ident × α)) (k : Ident) (v : α)
    (hmem : (k, v) ∈ l) (hnd : (l.map Prod.fst).Nodup) : alookup l k = some v := by
  induction l with
  | nil => cases hmem
  | cons p ps ih =>
    rcases List.mem_cons.mp hmem with h | h
    · rw [← h]
      simp [alookup]
    · have hkey : k ∈ ps.map Prod.fst := List.mem_map.mpr ⟨(k, v), h, rfl⟩
      have hp : ¬ p.1 = k := by
        intro he
        rw [List.map_cons] at hnd
        exact (List.nodup_cons.mp hnd).1 (he ▸ hkey)
      rw [List.map_cons] at hnd
      simp only [alookup, hp, if_false]
      exact ih h (List.nodup_cons.mp hnd).2

theorem lastAssoc_of_mem_nodup {α : Type} (l : List (Ident × α)) (k : Ident) (v : α)
    (hmem : (k, v) ∈ l) (hnd : (l.map Prod.fst).Nodup) : lastAssoc l k = some v := by
  unfold lastAssoc
  refine alookup_of_mem_nodup _ k v (List.mem_reverse.mpr hmem) ?_
  have hrev : List.map Prod.fst l.reverse = (List.map Prod.fst l).reverse := by simp
  rw [hrev]
  exact List.nodup_reverse.mpr hnd

theorem lastAssoc_eq_none {α : Type} (l : List (Ident × α)) (k : Ident)
    (h : ¬ k ∈ l.map Prod.fst) : lastAssoc l k = none := by
  unfold lastAssoc
  refine alookup_eq_none _ k ?_
  have hrev : List.map Prod.fst l.reverse = (List.map Prod.fst l).reverse := by simp
  rw [hrev]
  intro hm
  exact h (List.mem_reverse.mp hm)

theorem alookup_all_eq {α : Type} (l : List (Ident × α)) (k : Ident) (c : α)
    (hall : ∀ p ∈ l, p.1 = k → p.2 = c) (hmem : k ∈ l.map Prod.fst) :
    alookup l k = some c := by
  induction l with
  | nil => simp at hmem
  | cons p ps ih =>
    by_cases hp : p.1 = k
    · simp [alookup, hp, hall p (List.mem_cons_self p ps) hp]
    · have hk : k ∈ ps.map Prod.fst := by
        rw [List.map_cons] at hmem
        rcases List.mem_cons.mp hmem with h | h
        · exact absurd h.symm hp
        · exact h
      simp only [alookup, hp, if_false]
      exact ih (fun q hq hkq => hall q (List.mem_cons_of_mem p hq) hkq) hk

theorem lastAssoc_all_eq {α : Type} (l : List (Ident × α)) (k : Ident) (c : α)
    (hall : ∀ p ∈ l, p.1 = k → p.2 = c) (hmem : k ∈ l.map Prod.fst) :
    lastAssoc l k = some c := by
  unfold lastAssoc
  refine alookup_all_eq _ k c (fun p hp => hall p (List.mem_reverse.mp hp)) ?_
  have hrev : List.map Prod.fst l.reverse = (List.map Prod.fst l).reverse := by simp
  rw [hrev]
  exact List.mem_reverse.mpr hmem

theorem alookup_foldl_of_mem {α : Type} (kvs m : List (Ident × α)) (k : Ident) (v : α)
    (hmem : (k, v) ∈ kvs) (hnd : (kvs.map Prod.fst).Nodup) :
    alookup (kvs.foldl updStep m) k = some v := by
  rw [alookup_foldl_upd, lastAssoc_of_mem_nodup kvs k v hmem hnd]
  rfl

/-! Class-dict structure lemmas. -/

theorem alookup_map_value (body : List (Ident × Value)) (n : Ident) :
    alookup (body.map (fun p => (p.1, ClsAttr.value p.2))) n
      = (alookup body n).map ClsAttr.value := by
  induction body with
  | nil => rfl
  | cons p ps ih => by_cases h : p.1 = n <;> simp [alookup, h, ih]

theorem keys_map_prop (anns : List (Ident × String)) :
    (anns.map (fun a => (a.1, ClsAttr.prop))).map Prod.fst = anns.map Prod.fst := by
  induction anns with
  | nil => rfl
  | cons a as ih => simp [ih]

theorem frozen_dict_prop (r : RawCls) (q : Ident) (h : q ∈ r.anns.map Prod.fst) :
    alookup (frozenMetaNew r).dict q = some ClsAttr.prop := by
  show alookup (dictUpdate _ (r.anns.map (fun a => (a.1, ClsAttr.prop)))) q = _
  rw [alookup_dictUpdate]
  have hmem : q ∈ (r.anns.map (fun a => (a.1, ClsAttr.prop))).map Prod.fst := by
    rw [keys_map_prop]
    exact h
  have hall : ∀ p ∈ r.anns.map (fun a => (a.1, ClsAttr.prop)), p.1 = q → p.2 = ClsAttr.prop := by
    intro p hp _
    rcases List.mem_map.mp hp with ⟨a, _, rfl⟩
    rfl
  rw [lastAssoc_all_eq _ q ClsAttr.prop hall hmem]
  rfl

theorem frozen_dict_not_ann (r : RawCls) (q : Ident) (h : ¬ q ∈ r.anns.map Prod.fst) :
    alookup (frozenMetaNew r).dict q = (alookup r.body q).map ClsAttr.value := by
  show alookup (dictUpdate _ (r.anns.map (fun a => (a.1, ClsAttr.prop)))) q = _
  rw [alookup_dictUpdate]
  have hmem : ¬ q ∈ (r.anns.map (fun a => (a.1, ClsAttr.prop))).map Prod.fst := by
    rw [keys_map_prop]
    exact h
  rw [lastAssoc_eq_none _ _ hmem, alookup_map_value]
  rfl

theorem typeLookup_frozen_prop_of (rs : List RawCls) (n : Ident)
    (hann : ∃ r ∈ rs, n ∈ r.anns.map Prod.fst)
    (hbody : ∀ r ∈ rs, (alookup r.body n).isSome = true → n ∈ r.anns.map Prod.fst) :
    typeLookup (rs.map frozenMetaNew) n = some ClsAttr.prop := by
  induction rs with
  | nil => rcases hann with ⟨r, hr, _⟩; cases hr
  | cons r rest ih =>
    by_cases hr : n ∈ r.anns.map Prod.fst
    · simp only [List.map_cons, typeLookup, frozen_dict_prop r n hr]
    · have hb : alookup r.body n = none := by
        cases he : alookup r.body n with
        | none => rfl
        | some v =>
          exact absurd (hbody r (List.mem_cons_self r rest) (by rw [he]; rfl)) hr
      have hd : alookup (frozenMetaNew r).dict n = none := by
        rw [frozen_dict_not_ann r n hr, hb]
        rfl
      have hann2 : ∃ r2 ∈ rest, n ∈ r2.anns.map Prod.fst := by
        rcases hann with ⟨r2, hr2, hmem2⟩
        rcases List.mem_cons.mp hr2 with he | he
        · exact absurd (he ▸ hmem2) hr
        · exact ⟨r2, he, hmem2⟩
      simp only [List.map_cons, typeLookup, hd]
      exact ih hann2 (fun r2 h2 hs => hbody r2 (List.mem_cons_of_mem r h2) hs)

theorem typeLookup_frozen_prop_ann (rs : List RawCls) (q : Ident)
    (h : typeLookup (rs.map frozenMetaNew) q = some ClsAttr.prop) :
    ∃ r ∈ rs, q ∈ r.anns.map Prod.fst := by
  induction rs with
  | nil => simp [typeLookup] at h
  | cons r rest ih =>
    by_cases hr : q ∈ r.anns.map Prod.fst
    · exact ⟨r, List.mem_cons_self r rest, hr⟩
    · have hd := frozen_dict_not_ann r q hr
      simp only [List.map_cons, typeLookup] at h
      cases he : alookup (frozenMetaNew r).dict q with
      | some a =>
        rw [he] at h hd
        cases h
        cases hb : alookup r.body q with
        | none => rw [hb] at hd; cases hd
        | some w => rw [hb] at hd; cases hd
      | none =>
        rw [he] at h
        rcases ih h with ⟨r2, h2, hmem2⟩
        exact ⟨r2, List.mem_cons_of_mem r h2, hmem2⟩

theorem typeLookup_plain_not_prop (rs : List RawCls) (n : Ident) :
    typeLookup (rs.map plainCls) n ≠ some ClsAttr.prop := by
  induction rs with
  | nil => simp [typeLookup]
  | cons r rest ih =>
    simp only [List.map_cons, typeLookup]
    cases he : alookup (plainCls r).dict n with
    | none => exact ih
    | some a =>
      have hv : alookup (plainCls r).dict n = (alookup r.body n).map ClsAttr.value :=
        alookup_map_value r.body n
      rw [he] at hv
      cases hb : alookup r.body n with
      | none => rw [hb] at hv; cases hv
      | some w =>
        rw [hb] at hv
        cases hv
        intro hc
        cases hc

/-! Default-table lemmas. -/

theorem classDefaults_alookup_some (body : List (Ident × Value)) (anns : List (Ident × String))
    (k : Ident) (v : Value) (hk : k ∈ anns.map Prod.fst) (hv : alookup body k = some v) :
    alookup (classDefaults body anns) k = some v := by
  induction anns with
  | nil => simp at hk
  | cons a as ih =>
    by_cases ha : a.1 = k
    · rw [show classDefaults body (a :: as) =
          (match alookup body a.1 with
           | some w => (a.1, w) :: classDefaults body as
           | none => classDefaults body as) from rfl, ha, hv]
      simp [alookup]
    · have hk2 : k ∈ as.map Prod.fst := by
        rw [List.map_cons] at hk
        rcases List.mem_cons.mp hk with he | he
        · exact absurd he.symm ha
        · exact he
      rw [show classDefaults body (a :: as) =
          (match alookup body a.1 with
           | some w => (a.1, w) :: classDefaults body as
           | none => classDefaults body as) from rfl]
      cases hb : alookup body a.1 with
      | none => exact ih hk2
      | some w => simp only [alookup, ha, if_false]; exact ih hk2

theorem classDefaults_alookup_none (body : List (Ident × Value)) (anns : List (Ident × String))
    (k : Ident) (hv : alookup body k = none) :
    alookup (classDefaults body anns) k = none := by
  induction anns with
  | nil => rfl
  | cons a as ih =>
    rw [show classDefaults body (a :: as) =
        (match alookup body a.1 with
         | some w => (a.1, w) :: classDefaults body as
         | none => classDefaults body as) from rfl]
    cases hb : alookup body a.1 with
    | none => exact ih
    | some w =>
      have ha : ¬ a.1 = k := by
        intro he
        rw [he, hv] at hb
        cases hb
      simp only [alookup, ha, if_false]
      exact ih

theorem classDefaults_mem (body : List (Ident × Value)) (anns : List (Ident × String))
    (p : Ident × Value) (hp : p ∈ classDefaults body anns) : alookup body p.1 = some p.2 := by
  induction anns with
  | nil => cases hp
  | cons a as ih =>
    rw [show classDefaults body (a :: as) =
        (match alookup body a.1 with
         | some w => (a.1, w) :: classDefaults body as
         | none => classDefaults body as) from rfl] at hp
    cases hb : alookup body a.1 with
    | none => rw [hb] at hp; exact ih hp
    | some w =>
      rw [hb] at hp
      rcases List.mem_cons.mp hp with he | he
      · rw [he]
        exact hb
      · exact ih he

/-! Generated-method machinery lemmas. -/

theorem paramFor_map (clues : List Ident) (g : Ident → Param) (f : Ident)
    (hg : ∀ n, (g n).name = n) (hmem : f ∈ clues) :
    paramFor (clues.map g) f = some (g f) := by
  induction clues with
  | nil => cases hmem
  | cons c cs ih =>
    by_cases hc : c = f
    · subst hc
      simp [paramFor, hg]
    · have hf : f ∈ cs := by
        rcases List.mem_cons.mp hmem with he | he
        · exact absurd he.symm hc
        · exact he
      simp only [List.map_cons, paramFor, hg, hc, if_false]
      exact ih hf

theorem map_name_pointwise (l : List Ident) (g : Ident → Param)
    (hg : ∀ n, (g n).name = n) : (l.map g).map Param.name = l := by
  induction l with
  | nil => rfl
  | cons c cs ih => simp [hg, ih]

theorem datumGenInitParams_names (mro : Mro) :
    (datumGenInitParams mro).map Param.name = fieldNames mro := by
  unfold datumGenInitParams
  refine map_name_pointwise _ _ ?_
  intro n
  cases typeLookup mro n with
  | none => rfl
  | some a => cases a <;> rfl

theorem frozenGenInitParams_names (mro : Mro) :
    (frozenGenInitParams mro).map Param.name = fieldNames mro := by
  unfold frozenGenInitParams
  refine map_name_pointwise _ _ ?_
  intro n
  cases alookup (get_defaults mro) n with
  | none => rfl
  | some v => rfl

theorem instGetattr_plain (o : Obj) (n : Ident) (v : Value)
    (hnp : typeLookup o.mro n ≠ some ClsAttr.prop)
    (hv : alookup o.attrs n = some v) : instGetattr o n = .ok v := by
  unfold instGetattr
  cases ht : typeLookup o.mro n with
  | none => rw [hv]
  | some a =>
    cases a with
    | prop => exact absurd ht hnp
    | value w => rw [hv]; rfl

theorem instGetattr_prop (o : Obj) (n : Ident) (v : Value)
    (hp : typeLookup o.mro n = some ClsAttr.prop)
    (hv : alookup o.attrs (storePfx ++ n) = some v) : instGetattr o n = .ok v := by
  unfold instGetattr
  rw [hp, hv]

theorem instSetattr_no_prop (o : Obj) (n : Ident) (v : Value)
    (h : typeLookup o.mro n ≠ some ClsAttr.prop) :
    instSetattr o n v = .ok ⟨o.mro, updateEntry o.attrs n v⟩ := by
  unfold instSetattr
  cases ht : typeLookup o.mro n with
  | none => rfl
  | some a =>
    cases a with
    | prop => exact absurd ht h
    | value w => rfl

theorem writeAttrs_ok (mro : Mro) (kvs : List (Ident × Value)) (attrs : List (Ident × Value))
    (h : ∀ p ∈ kvs, typeLookup mro p.1 ≠ some ClsAttr.prop) :
    writeAttrs ⟨mro, attrs⟩ kvs = .ok ⟨mro, kvs.foldl updStep attrs⟩ := by
  induction kvs generalizing attrs with
  | nil => rfl
  | cons p ps ih =>
    have hset := instSetattr_no_prop ⟨mro, attrs⟩ p.1 p.2 (h p (List.mem_cons_self p ps))
    show (match instSetattr ⟨mro, attrs⟩ p.1 p.2 with
      | .ok o2 => writeAttrs o2 ps
      | .error e => .error e) = _
    rw [hset]
    exact ih _ (fun q hq => h q (List.mem_cons_of_mem p hq))

theorem exAll_ok_zip (f : Ident → Except String Value) (l : List Ident) (vs : List Value)
    (hlen : l.length = vs.length) (h : ∀ p ∈ l.zip vs, f p.1 = .ok p.2) :
    exAll f l = .ok vs := by
  induction l generalizing vs with
  | nil =>
    cases vs with
    | nil => rfl
    | cons v vs2 => simp at hlen
  | cons n ns ih =>
    cases vs with
    | nil => simp at hlen
    | cons v vs2 =>
      have h1 : f n = .ok v := h (n, v) (by simp [List.zip_cons_cons])
      show (match f n with
        | Except.error e => Except.error e
        | Except.ok w =>
          match exAll f ns with
          | Except.error e => Except.error e
          | Except.ok ws => Except.ok (w :: ws)) = _
      rw [h1, ih vs2 (by simpa using hlen)
        (fun p hp => h p (by simp [List.zip_cons_cons]; exact Or.inr hp))]

theorem exAll_get (f : Ident → Except String Value) (l : List Ident) (vs : List Value)
    (h : exAll f l = .ok vs) :
    l.length = vs.length ∧
      ∀ j n, l.get? j = some n → ∃ v, vs.get? j = some v ∧ f n = .ok v := by
  induction l generalizing vs with
  | nil =>
    cases h
    exact ⟨rfl, fun j n hj => by cases hj⟩
  | cons m ms ih =>
    rw [show exAll f (m :: ms) =
        (match f m with
         | .error e => .error e
         | .ok w => match exAll f ms with
           | .error e => .error e
           | .ok ws => .ok (w :: ws)) from rfl] at h
    cases hf : f m with
    | error e => rw [hf] at h; cases h
    | ok v =>
      rw [hf] at h
      cases he : exAll f ms with
      | error e => rw [he] at h; cases h
      | ok ws =>
        rw [he] at h
        cases h
        obtain ⟨hl, hrest⟩ := ih ws he
        refine ⟨by simp [hl], ?_⟩
        intro j n hj
        cases j with
        | zero =>
          cases hj
          exact ⟨v, rfl, hf⟩
        | succ j2 => exact hrest j2 n hj

theorem evalParams_names (ps : List Param) (pd : List (Ident × Option Value))
    (h : evalParams ps = some pd) : pd.map Prod.fst = ps.map Param.name := by
  induction ps generalizing pd with
  | nil => cases h; rfl
  | cons p ps2 ih =>
    rw [show evalParams (p :: ps2) =
        (match p.default with
         | none => (evalParams ps2).map (fun r => (p.name, none) :: r)
         | some e =>
           match evalPyExpr e with
           | some v => (evalParams ps2).map (fun r => (p.name, some v) :: r)
           | none => none) from rfl] at h
    cases hd : p.default with
    | none =>
      rw [hd] at h
      cases he : evalParams ps2 with
      | none => rw [he] at h; cases h
      | some r =>
        rw [he] at h
        cases h
        simp [ih r he]
    | some e =>
      rw [hd] at h
      have h2 : (match evalPyExpr e with
          | some v => (evalParams ps2).map (fun r => (p.name, some v) :: r)
          | none => none) = some pd := h
      cases hv : evalPyExpr e with
      | none => rw [hv] at h2; cases h2
      | some v =>
        rw [hv] at h2
        cases he : evalParams ps2 with
        | none => rw [he] at h2; cases h2
        | some r =>
          rw [he] at h2
          cases h2
          simp [ih r he]

theorem bindPositional_exact (ps : List (Ident × Option Value)) (args : List Value)
    (h : ps.length = args.length) :
    bindPositional ps args = some ((ps.map Prod.fst).zip args) := by
  induction ps generalizing args with
  | nil =>
    cases args with
    | nil => rfl
    | cons a as => simp at h
  | cons p ps2 ih =>
    cases args with
    | nil => simp at h
    | cons a as =>
      obtain ⟨n, d⟩ := p
      show (bindPositional ps2 as).map (fun r => (n, a) :: r) = _
      rw [ih as (by simpa using h)]
      simp [List.zip_cons_cons]

theorem construct_ok_elim (ps : List Param) (mro : Mro) (pfx : String) (args : List Value)
    (o : Obj) (h : constructWith ps mro pfx args = .ok o) :
    ∃ pd bound, evalParams ps = some pd ∧ bindPositional pd args = some bound ∧
      writeAttrs ⟨mro, []⟩ (bound.map (fun p => (pfx ++ p.1, p.2))) = .ok o := by
  unfold constructWith at h
  by_cases hw : defaultsWellOrdered ps = false
  · rw [if_pos hw] at h
    cases h
  · rw [if_neg hw] at h
    cases he : evalParams ps with
    | none => rw [he] at h; cases h
    | some pd =>
      rw [he] at h
      have h2 : (match bindPositional pd args with
          | none => Except.error "TypeError: bad arguments to generated init"
          | some bound =>
            writeAttrs ⟨mro, []⟩ (bound.map (fun p => (pfx ++ p.1, p.2)))) = Except.ok o := h
      cases hb : bindPositional pd args with
      | none => rw [hb] at h2; cases h2
      | some bound =>
        rw [hb] at h2
        exact ⟨pd, bound, rfl, hb, h2⟩

theorem strAppend_left_cancel (p a b : String) (h : p ++ a = p ++ b) : a = b := by
  obtain ⟨dp⟩ := p
  obtain ⟨da⟩ := a
  obtain ⟨db⟩ := b
  have hd : dp ++ da = dp ++ db := congrArg String.data h
  exact congrArg String.mk (List.append_cancel_left hd)

theorem empty_string_append (s : String) : "" ++ s = s := by
  cases s
  rfl

/-! Construct-then-iterate roundtrips. -/

theorem keys_zip (l : List Ident) (vs : List Value) (h : l.length = vs.length) :
    (l.zip vs).map Prod.fst = l := List.map_fst_zip l vs (le_of_eq h)

theorem datum_roundtrip (rs : List RawCls) (args : List Value) (o : Obj)
    (hok : datumConstruct (rs.map plainCls) args = .ok o)
    (hlen : args.length = (fieldNames (rs.map plainCls)).length) :
    o.mro = rs.map plainCls ∧ fieldValues o = .ok args := by
  obtain ⟨pd, bound, he, hb, hw⟩ := construct_ok_elim _ _ _ _ _ hok
  have hnames : pd.map Prod.fst = fieldNames (rs.map plainCls) := by
    rw [evalParams_names _ _ he, datumGenInitParams_names]
  have hpdlen : pd.length = args.length := by
    have h1 := congrArg List.length hnames
    rw [List.length_map] at h1
    rw [h1, hlen]
  rw [bindPositional_exact pd args hpdlen] at hb
  have hbound : bound = (fieldNames (rs.map plainCls)).zip args := by
    cases hb
    rw [hnames]
  subst hbound
  have hkeys : ((fieldNames (rs.map plainCls)).zip args).map Prod.fst
      = fieldNames (rs.map plainCls) := keys_zip _ _ hlen.symm
  have hmapid : ((fieldNames (rs.map plainCls)).zip args).map (fun p => ("" ++ p.1, p.2))
      = (fieldNames (rs.map plainCls)).zip args := by
    refine List.map_congr_left ?_ |>.trans (List.map_id _)
    intro p _
    simp [empty_string_append]
  rw [hmapid, writeAttrs_ok _ _ _
      (fun p _ => typeLookup_plain_not_prop rs p.1)] at hw
  have ho : o = ⟨rs.map plainCls, ((fieldNames (rs.map plainCls)).zip args).foldl updStep []⟩ := by
    cases hw
    rfl
  subst ho
  refine ⟨rfl, ?_⟩
  unfold fieldValues
  refine exAll_ok_zip _ _ _ hlen.symm ?_
  intro p hp
  refine instGetattr_plain _ _ _ (typeLookup_plain_not_prop rs p.1) ?_
  refine alookup_foldl_of_mem _ _ _ _ ?_ ?_
  · simpa using hp
  · rw [hkeys]
    exact fieldNames_nodup _

theorem frozen_roundtrip (rs : List RawCls) (args : List Value) (o : Obj)
    (hbody0 : ∀ r ∈ rs, ∀ p ∈ r.body, p.1 ∈ r.anns.map Prod.fst)
    (hhid : ∀ r ∈ rs, ∀ m ∈ fieldNames (rs.map frozenMetaNew),
      ¬ (storePfx ++ m) ∈ r.anns.map Prod.fst)
    (hok : frozenConstruct (rs.map frozenMetaNew) args = .ok o)
    (hlen : args.length = (fieldNames (rs.map frozenMetaNew)).length) :
    o.mro = rs.map frozenMetaNew ∧ fieldValues o = .ok args := by
  have hbody : ∀ r ∈ rs, ∀ n, (alookup r.body n).isSome = true → n ∈ r.anns.map Prod.fst := by
    intro r hr n hs
    rcases List.mem_map.mp ((alookup_isSome_iff _ _).mp hs) with ⟨p, hp, rfl⟩
    exact hbody0 r hr p hp
  obtain ⟨pd, bound, he, hb, hw⟩ := construct_ok_elim _ _ _ _ _ hok
  have hnames : pd.map Prod.fst = fieldNames (rs.map frozenMetaNew) := by
    rw [evalParams_names _ _ he, frozenGenInitParams_names]
  have hpdlen : pd.length = args.length := by
    have h1 := congrArg List.length hnames
    rw [List.length_map] at h1
    rw [h1, hlen]
  rw [bindPositional_exact pd args hpdlen] at hb
  have hbound : bound = (fieldNames (rs.map frozenMetaNew)).zip args := by
    cases hb
    rw [hnames]
  subst hbound
  have hnotprop : ∀ q ∈ ((fieldNames (rs.map frozenMetaNew)).zip args).map
      (fun p => (storePfx ++ p.1, p.2)),
      typeLookup (rs.map frozenMetaNew) q.1 ≠ some ClsAttr.prop := by
    intro q hq hp
    rcases List.mem_map.mp hq with ⟨p, hpz, rfl⟩
    rcases typeLookup_frozen_prop_ann rs _ hp with ⟨r, hr, hmem⟩
    exact hhid r hr p.1 (List.of_mem_zip (show (p.1, p.2) ∈ _ from by simpa using hpz)).1 hmem
  rw [writeAttrs_ok _ _ _ hnotprop] at hw
  have ho : o = ⟨rs.map frozenMetaNew,
      (((fieldNames (rs.map frozenMetaNew)).zip args).map
        (fun p => (storePfx ++ p.1, p.2))).foldl updStep []⟩ := by
    cases hw
    rfl
  subst ho
  refine ⟨rfl, ?_⟩
  unfold fieldValues
  refine exAll_ok_zip _ _ _ hlen.symm ?_
  intro p hp
  have hpfields : p.1 ∈ fieldNames (rs.map frozenMetaNew) := by
    have h2 := List.of_mem_zip (show p ∈ (fieldNames (rs.map frozenMetaNew)).zip args from by
      simpa using hp)
    exact h2.1
  have hprop : typeLookup (rs.map frozenMetaNew) p.1 = some ClsAttr.prop := by
    refine typeLookup_frozen_prop_of rs p.1 ?_ (fun r hr => hbody r hr p.1)
    rcases (mem_fieldNames _ _).mp hpfields with ⟨c, hc, hmem⟩
    rcases List.mem_map.mp hc with ⟨r, hr, rfl⟩
    exact ⟨r, hr, hmem⟩
  refine instGetattr_prop _ _ _ hprop ?_
  refine alookup_foldl_of_mem _ _ _ _ ?_ ?_
  · refine List.mem_map.mpr ⟨(p.1, p.2), ?_, rfl⟩
    simpa using hp
  · have hk2 : (((fieldNames (rs.map frozenMetaNew)).zip args).map
        (fun p => (storePfx ++ p.1, p.2))).map Prod.fst
        = ((fieldNames (rs.map frozenMetaNew)).zip args).map (fun p => storePfx ++ p.1) := by
      rw [List.map_map]
      rfl
    have hk3 : ((fieldNames (rs.map frozenMetaNew)).zip args).map (fun p => storePfx ++ p.1)
        = (((fieldNames (rs.map frozenMetaNew)).zip args).map Prod.fst).map
            (fun n => storePfx ++ n) := by
      rw [List.map_map]
      rfl
    rw [hk2, hk3, keys_zip _ _ hlen.symm]
    refine List.Nodup.map ?_ (fieldNames_nodup _)
    intro a b hab
    exact strAppend_left_cancel storePfx a b hab

/-! Further helpers for the claim theorems. -/

theorem datumEq_of_vals (a b : Obj) (xs ys : List Value) (ha : fieldValues a = .ok xs)
    (hb : fieldValues b = .ok ys) (hm : a.mro = b.mro) :
    datumEq a b = .ok (some (decide (xs = ys))) := by
  unfold datumEq
  rw [if_pos hm, ha, hm]
  rw [show exAll (instGetattr b) (fieldNames b.mro) = fieldValues b from rfl, hb]

theorem letter_not_digit (c : Char) (h : isLetterCh c = true) : isDigitCh c = false := by
  have hp := of_decide_eq_true h
  apply decide_eq_false
  omega

theorem quoteCh_toNat : quoteCh.toNat = 39 := by decide

theorem dashCh_toNat : ('-' : Char).toNat = 45 := by decide

theorem strExpr_letters (s : String) (hne : s.data ≠ [])
    (halpha : ∀ c ∈ s.data, isLetterCh c = true) : strExpr (.vStr s) = .ident s := by
  obtain ⟨c, cs, he⟩ : ∃ c cs, s.data = c :: cs := by
    cases hd : s.data with
    | nil => exact absurd hd hne
    | cons c cs => exact ⟨c, cs, rfl⟩
  have hc := of_decide_eq_true (halpha c (by rw [he]; exact List.mem_cons_self c cs))
  have h1 : ¬ (s.data ≠ [] ∧ s.data.all isDigitCh) := by
    rintro ⟨-, hall⟩
    have hdg : isDigitCh c = true :=
      List.all_eq_true.mp hall c (by rw [he]; exact List.mem_cons_self c cs)
    have := of_decide_eq_true hdg
    omega
  have h2 : ¬ (2 ≤ s.data.length ∧ s.data.head? = some quoteCh
      ∧ s.data.getLast? = some quoteCh) := by
    rintro ⟨-, hhead, -⟩
    rw [he] at hhead
    have hcq : c = quoteCh := Option.some.inj hhead
    have h39 : c.toNat = 39 := by rw [hcq, quoteCh_toNat]
    omega
  have h3 : ¬ (s.data.head? = some '-' ∧ s.data.tail ≠ [] ∧ s.data.tail.all isDigitCh) := by
    rintro ⟨hhead, -, -⟩
    rw [he] at hhead
    have hcq : c = '-' := Option.some.inj hhead
    have h45 : c.toNat = 45 := by rw [hcq, dashCh_toNat]
    omega
  show (if s.data ≠ [] ∧ s.data.all isDigitCh then PyExpr.litInt (Int.ofNat (digitsToNat s.data))
    else if 2 ≤ s.data.length ∧ s.data.head? = some quoteCh ∧ s.data.getLast? = some quoteCh then
      PyExpr.litStr (String.mk ((s.data.drop 1).dropLast))
    else if s.data.head? = some '-' ∧ s.data.tail ≠ [] ∧ s.data.tail.all isDigitCh then
      PyExpr.litInt (-(Int.ofNat (digitsToNat s.data.tail)))
    else PyExpr.ident s) = PyExpr.ident s
  rw [if_neg h1, if_neg h2, if_neg h3]

/-- C9: field collection returns an ordered mapping unique by name, equal to the
spec-side base-to-derived fold of all declarations (`specMerge`); a later
declaration overrides the value while the name keeps its first-seen position
(keys are exactly the first-occurrence dedup, values are the last
declaration's); and no declarations at all yield the empty table. -/
theorem c9_all_clues_merge (mro : Mro) :
    all_clues mro = specMerge (declSeq mro) ∧
    ((all_clues mro).map Prod.fst).Nodup ∧
    (all_clues mro).map Prod.fst = dedupFirst ((declSeq mro).map Prod.fst) ∧
    (∀ k, alookup (all_clues mro) k = lastAssoc (declSeq mro) k) ∧
    (declSeq mro = [] → all_clues mro = []) := by
  refine ⟨all_clues_eq_specMerge mro, fieldNames_nodup mro, fieldNames_eq_dedup mro, ?_, ?_⟩
  · intro k
    rw [all_clues_eq_specMerge, alookup_specMerge]
  · intro h
    rw [all_clues_eq_specMerge, h]
    rfl

/-- Witness for C9 at a concrete two-class chain and at the empty chain. -/
theorem c9_all_clues_merge_witness :
    alookup (all_clues [plainCls ⟨"S", [("y", "int")], []⟩,
        plainCls ⟨"B", [("x", "int"), ("y", "str")], []⟩]) "y"
      = lastAssoc (declSeq [plainCls ⟨"S", [("y", "int")], []⟩,
        plainCls ⟨"B", [("x", "int"), ("y", "str")], []⟩]) "y" ∧
    all_clues ([] : Mro) = [] :=
  ⟨(c9_all_clues_merge _).2.2.2.1 "y", (c9_all_clues_merge []).2.2.2.2 rfl⟩

/-- C2: the merged default lookup is claimed to walk base to derived with the
type's own entry winning; `FrozenMeta.get_defaults` instead iterates
`cls.__mro__` in its native derived-to-base order, so the ancestor's entry
overrides the type's own.  With `Base` declaring `a = 1` and `Derived(Base)`
redeclaring `a = 2`, the merged lookup returns the ancestor's `1`, not the
subclass's own recorded `2` (which `all_clues`-style reversal would return). -/
theorem c2_get_defaults_ancestor_wins :
    alookup (get_defaults [frozenMetaNew ⟨"Derived", [("a", "int")], [("a", .vInt 2)]⟩,
        frozenMetaNew ⟨"Base", [("a", "int")], [("a", .vInt 1)]⟩]) "a"
      = some (.vInt 1) ∧
    alookup (frozenMetaNew ⟨"Derived", [("a", "int")], [("a", .vInt 2)]⟩).defaults "a"
      = some (.vInt 2) ∧
    some (Value.vInt 1) ≠ some (Value.vInt 2) :=
  ⟨rfl, rfl, by decide⟩

theorem iter_indent_bad (clues : List Ident) (h : clues ≠ []) :
    suiteIndentOk (iterBodyLines clues) = false := by
  obtain ⟨c, cs, rfl⟩ : ∃ c cs, clues = c :: cs := by
    cases hd : clues with
    | nil => exact absurd hd h
    | cons c cs => exact ⟨c, cs, rfl⟩
  show ((cs.map (fun n => ((3 : Nat), "yield self." ++ n)) ++ [((4 : Nat), "pass")]).all
      (fun p => p.1 == 3)) = false
  cases hall : ((cs.map (fun n => ((3 : Nat), "yield self." ++ n)) ++ [((4 : Nat), "pass")]).all
      (fun p => p.1 == 3)) with
  | false => rfl
  | true =>
    have h4 := List.all_eq_true.mp hall ((4 : Nat), "pass") (by simp)
    simp at h4

/-- C1: the claimed construct-then-iterate roundtrip never succeeds in this
code.  The constructor side is right — for every valid full argument tuple
the constructed instance reads back exactly the arguments in field order
through the accessors, on both variants — but the generated `__iter__`
indents its `yield` lines three spaces while `cluegen.__get__` appends a
four-space `pass`, so for every type with at least one field the first
access to `__iter__` dies inside `exec` with `IndentationError`; for the
zero-field type the body compiles without a `yield` and `iter()` raises
`TypeError`.  Iteration therefore never yields anything. -/
theorem c1_construct_iterate :
    (∀ (o : Obj) (vs : List Value), ¬ datumIter o = .ok vs) ∧
    (∀ o : Obj, fieldNames o.mro ≠ [] →
      datumIter o = .error "IndentationError: unexpected indent") ∧
    (∀ o : Obj, fieldNames o.mro = [] →
      datumIter o = .error "TypeError: iter() returned non-iterator") ∧
    (∀ (rs : List RawCls) (args : List Value) (o : Obj),
      datumConstruct (rs.map plainCls) args = .ok o →
      args.length = (fieldNames (rs.map plainCls)).length →
      fieldValues o = .ok args) ∧
    (∀ (rs : List RawCls) (args : List Value) (o : Obj),
      (∀ r ∈ rs, ∀ p ∈ r.body, p.1 ∈ r.anns.map Prod.fst) →
      (∀ r ∈ rs, ∀ m ∈ fieldNames (rs.map frozenMetaNew),
        ¬ (storePfx ++ m) ∈ r.anns.map Prod.fst) →
      frozenConstruct (rs.map frozenMetaNew) args = .ok o →
      args.length = (fieldNames (rs.map frozenMetaNew)).length →
      fieldValues o = .ok args) ∧
    datumConstruct [plainCls ⟨"Point", [("x", "int"), ("y", "int")], []⟩] [.vInt 3, .vInt 4]
      = .ok ⟨[plainCls ⟨"Point", [("x", "int"), ("y", "int")], []⟩],
          [("x", .vInt 3), ("y", .vInt 4)]⟩ ∧
    datumConstruct [plainCls ⟨"Empty", [], []⟩] []
      = .ok ⟨[plainCls ⟨"Empty", [], []⟩], []⟩ := by
  have hpos : ∀ o : Obj, fieldNames o.mro ≠ [] →
      datumIter o = .error "IndentationError: unexpected indent" := by
    intro o h
    unfold datumIter
    rw [if_pos (iter_indent_bad _ h)]
  have hzero : ∀ o : Obj, fieldNames o.mro = [] →
      datumIter o = .error "TypeError: iter() returned non-iterator" := by
    intro o h
    unfold datumIter
    rw [h]
    rfl
  refine ⟨?_, hpos, hzero, ?_, ?_, rfl, rfl⟩
  · intro o vs hok
    by_cases h : fieldNames o.mro = []
    · rw [hzero o h] at hok
      cases hok
    · rw [hpos o h] at hok
      cases hok
  · intro rs args o hok hlen
    exact (datum_roundtrip rs args o hok hlen).2
  · intro rs args o hb hh hok hlen
    exact (frozen_roundtrip rs args o hb hh hok hlen).2

/-- Witness for C1: `Point(3, 4)` constructs with the right stored field
values, yet iterating it raises `IndentationError`; iterating the zero-field
instance raises `TypeError`. -/
theorem c1_construct_iterate_witness :
    fieldValues ⟨[plainCls ⟨"Point", [("x", "int"), ("y", "int")], []⟩],
        [("x", .vInt 3), ("y", .vInt 4)]⟩ = .ok [.vInt 3, .vInt 4] ∧
    datumIter ⟨[plainCls ⟨"Point", [("x", "int"), ("y", "int")], []⟩],
        [("x", .vInt 3), ("y", .vInt 4)]⟩ = .error "IndentationError: unexpected indent" ∧
    datumIter ⟨[plainCls ⟨"Empty", [], []⟩], []⟩
      = .error "TypeError: iter() returned non-iterator" :=
  ⟨c1_construct_iterate.2.2.2.1 [⟨"Point", [("x", "int"), ("y", "int")], []⟩]
      [.vInt 3, .vInt 4] _ rfl rfl,
    c1_construct_iterate.2.1 ⟨[plainCls ⟨"Point", [("x", "int"), ("y", "int")], []⟩],
      [("x", .vInt 3), ("y", .vInt 4)]⟩ (by decide),
    c1_construct_iterate.2.2.1 ⟨[plainCls ⟨"Empty", [], []⟩], []⟩ rfl⟩

/-- C3 counterexample: `B` declares `y: int = 0` and the subclass `S`
redeclares `y: int` without a default.  The claim says `y` becomes a mandatory
parameter of the generated constructor; in fact the generated parameter still
carries the ancestor's default `0` (because `hasattr(cls, name)` sees the
inherited class attribute), and calling the constructor with no arguments
succeeds, producing `y = 0`. -/
theorem c3_redeclare_counterexample :
    paramFor (datumGenInitParams [plainCls ⟨"S", [("y", "int")], []⟩,
        plainCls ⟨"B", [("y", "int")], [("y", .vInt 0)]⟩]) "y"
      = some ⟨"y", some (.litInt 0)⟩ ∧
    datumConstruct [plainCls ⟨"S", [("y", "int")], []⟩,
        plainCls ⟨"B", [("y", "int")], [("y", .vInt 0)]⟩] []
      = .ok ⟨[plainCls ⟨"S", [("y", "int")], []⟩,
          plainCls ⟨"B", [("y", "int")], [("y", .vInt 0)]⟩], [("y", .vInt 0)]⟩ ∧
    some (Param.mk "y" (some (.litInt 0))) ≠ some (Param.mk "y" none) :=
  ⟨rfl, rfl, by decide⟩

/-- C3 (amended): whenever the subclass `S` attaches no default of its own for
a field `f` that an ancestor `B` declares with default `d` — whether or not
`S` redeclares the annotation — the generated constructor parameter for `f`
carries the ancestor's default, on both variants (`repr`-interpolated for
`Datum`, `str`-interpolated for `FrozenDatum`); redeclaration alone never
makes the field mandatory. -/
theorem c3_inherited_default (S B : RawCls) (f : Ident) (d : Value)
    (hSbody : alookup S.body f = none)
    (hBann : f ∈ B.anns.map Prod.fst)
    (hBbody : alookup B.body f = some d) :
    paramFor (datumGenInitParams [plainCls S, plainCls B]) f
      = some ⟨f, some (reprExpr d)⟩ ∧
    paramFor (frozenGenInitParams [frozenMetaNew S, frozenMetaNew B]) f
      = some ⟨f, some (strExpr d)⟩ := by
  constructor
  · have hmem : f ∈ fieldNames [plainCls S, plainCls B] :=
      (mem_fieldNames _ f).mpr ⟨plainCls B, by simp, hBann⟩
    have ht : typeLookup [plainCls S, plainCls B] f = some (ClsAttr.value d) := by
      show (match alookup (plainCls S).dict f with
        | some a => some a
        | none => typeLookup [plainCls B] f) = _
      rw [show (plainCls S).dict = S.body.map (fun p => (p.1, ClsAttr.value p.2)) from rfl,
        alookup_map_value, hSbody]
      show typeLookup [plainCls B] f = _
      show (match alookup (plainCls B).dict f with
        | some a => some a
        | none => typeLookup [] f) = _
      rw [show (plainCls B).dict = B.body.map (fun p => (p.1, ClsAttr.value p.2)) from rfl,
        alookup_map_value, hBbody]
      rfl
    unfold datumGenInitParams
    rw [paramFor_map _ _ f (fun n => by
      cases typeLookup [plainCls S, plainCls B] n with
      | none => rfl
      | some a => cases a <;> rfl) hmem]
    rw [ht]
  · have hmem : f ∈ fieldNames [frozenMetaNew S, frozenMetaNew B] :=
      (mem_fieldNames _ f).mpr ⟨frozenMetaNew B, by simp, hBann⟩
    have hd : alookup (get_defaults [frozenMetaNew S, frozenMetaNew B]) f = some d := by
      unfold get_defaults
      rw [List.foldl_cons, List.foldl_cons, List.foldl_nil, alookup_dictUpdate]
      have hB : lastAssoc (frozenMetaNew B).defaults f = some d := by
        refine lastAssoc_all_eq _ f d ?_ ?_
        · intro p hp hpf
          have h2 := classDefaults_mem B.body B.anns p hp
          rw [hpf, hBbody] at h2
          exact (Option.some.inj h2).symm
        · have h3 := classDefaults_alookup_some B.body B.anns f d hBann hBbody
          refine (alookup_isSome_iff _ _).mp ?_
          show (alookup (classDefaults B.body B.anns) f).isSome = true
          rw [h3]
          rfl
      rw [hB]
      rfl
    unfold frozenGenInitParams
    rw [paramFor_map _ _ f (fun n => by
      cases alookup (get_defaults [frozenMetaNew S, frozenMetaNew B]) n with
      | none => rfl
      | some v => rfl) hmem]
    rw [hd]

/-- Witness for C3 (amended): `S` redeclares `y` without a default over
`B(y: int = 0)`, and the generated parameter keeps default `0` on both
variants. -/
theorem c3_inherited_default_witness :
    paramFor (datumGenInitParams [plainCls ⟨"S", [("y", "int")], []⟩,
        plainCls ⟨"B", [("y", "int")], [("y", .vInt 0)]⟩]) "y"
      = some ⟨"y", some (reprExpr (.vInt 0))⟩ ∧
    paramFor (frozenGenInitParams [frozenMetaNew ⟨"S", [("y", "int")], []⟩,
        frozenMetaNew ⟨"B", [("y", "int")], [("y", .vInt 0)]⟩]) "y"
      = some ⟨"y", some (strExpr (.vInt 0))⟩ :=
  c3_inherited_default ⟨"S", [("y", "int")], []⟩ ⟨"B", [("y", "int")], [("y", .vInt 0)]⟩
    "y" (.vInt 0) rfl (by decide) rfl

/-- C4 counterexample: on a two-field `Point(3, 4)`, index-by-position with
the negative position `-1` returns the last field's value rather than
surfacing an error, contradicting the claim that every position `< 0` is an
error. -/
theorem c4_negative_index_counterexample :
    datumGetitem ⟨[plainCls ⟨"Point", [("x", "int"), ("y", "int")], []⟩],
        [("x", .vInt 3), ("y", .vInt 4)]⟩ (-1) = .ok (.vInt 4) := rfl

/-- C4 (amended): index-by-position follows Python tuple indexing on the field
tuple.  A position `0 ≤ i < |F|` returns the `i`-th field value in field
order; a negative position `-|F| ≤ i < 0` returns the field at `|F| + i`
(counting from the end) instead of erroring; only positions `≥ |F|` or
`< -|F|` surface `IndexError`. -/
theorem c4_getitem_positions (o : Obj) (vs : List Value)
    (hv : fieldValues o = .ok vs) :
    (∀ j : Nat, ∀ v, vs.get? j = some v → datumGetitem o (j : Int) = .ok v) ∧
    (∀ j : Nat, 1 ≤ j → j ≤ vs.length → ∀ v, vs.get? (vs.length - j) = some v →
      datumGetitem o (-(j : Int)) = .ok v) ∧
    (∀ i : Int, ((vs.length : Int) ≤ i ∨ i < -(vs.length : Int)) →
      datumGetitem o i = .error "IndexError: tuple index out of range") := by
  obtain ⟨hlen, hpt⟩ := exAll_get (instGetattr o) (fieldNames o.mro) vs hv
  have hread : ∀ j v, vs.get? j = some v →
      ∃ n, (fieldNames o.mro).get? j = some n ∧ instGetattr o n = .ok v := by
    intro j v hj
    have hjv : j < vs.length := by
      by_contra hge
      rw [List.get?_eq_none.mpr (le_of_not_lt hge)] at hj
      cases hj
    obtain ⟨n, hn⟩ : ∃ n, (fieldNames o.mro).get? j = some n := by
      cases hg : (fieldNames o.mro).get? j with
      | none =>
        rw [List.get?_eq_none] at hg
        omega
      | some n => exact ⟨n, rfl⟩
    obtain ⟨v2, hv2, hfa⟩ := hpt j n hn
    rw [hj] at hv2
    cases hv2
    exact ⟨n, hn, hfa⟩
  refine ⟨?_, ?_, ?_⟩
  · intro j v hj
    obtain ⟨n, hn, hfa⟩ := hread j v hj
    unfold datumGetitem pyTupleGet
    rw [if_pos (by omega : (0 : Int) ≤ (j : Int)),
      show ((j : Int)).toNat = j from by omega, hn]
    exact hfa
  · intro j h1 h2 v hj
    obtain ⟨n, hn, hfa⟩ := hread (vs.length - j) v hj
    unfold datumGetitem pyTupleGet
    rw [if_neg (by omega : ¬ (0 : Int) ≤ -(j : Int)),
      if_pos (by rw [hlen]; omega : (0 : Int) ≤ -(j : Int) + (fieldNames o.mro).length),
      show (-(j : Int) + (fieldNames o.mro).length).toNat = vs.length - j from by
        rw [hlen]; omega,
      hn]
    exact hfa
  · intro i hi
    unfold datumGetitem pyTupleGet
    by_cases h0 : (0 : Int) ≤ i
    · have hbig : (fieldNames o.mro).length ≤ i.toNat := by rw [hlen]; omega
      rw [if_pos h0, List.get?_eq_none.mpr hbig]
    · have hneg : i < -(vs.length : Int) := by
        rcases hi with h | h
        · omega
        · exact h
      rw [if_neg h0, if_neg (by rw [hlen]; omega : ¬ (0 : Int) ≤ i + (fieldNames o.mro).length)]

/-- Witness for C4 at `Point(3, 4)`: position `1` reads `4`, position `-2`
reads `3`, and position `5` errors. -/
theorem c4_getitem_positions_witness :
    datumGetitem ⟨[plainCls ⟨"Point", [("x", "int"), ("y", "int")], []⟩],
        [("x", .vInt 3), ("y", .vInt 4)]⟩ ((1 : Nat) : Int) = .ok (.vInt 4) ∧
    datumGetitem ⟨[plainCls ⟨"Point", [("x", "int"), ("y", "int")], []⟩],
        [("x", .vInt 3), ("y", .vInt 4)]⟩ (-((2 : Nat) : Int)) = .ok (.vInt 3) ∧
    datumGetitem ⟨[plainCls ⟨"Point", [("x", "int"), ("y", "int")], []⟩],
        [("x", .vInt 3), ("y", .vInt 4)]⟩ 5 = .error "IndexError: tuple index out of range" :=
  ⟨(c4_getitem_positions ⟨[plainCls ⟨"Point", [("x", "int"), ("y", "int")], []⟩],
        [("x", .vInt 3), ("y", .vInt 4)]⟩ [.vInt 3, .vInt 4] rfl).1 1 (.vInt 4) rfl,
    (c4_getitem_positions ⟨[plainCls ⟨"Point", [("x", "int"), ("y", "int")], []⟩],
        [("x", .vInt 3), ("y", .vInt 4)]⟩ [.vInt 3, .vInt 4] rfl).2.1 2 (by decide) (by decide)
      (.vInt 3) rfl,
    (c4_getitem_positions ⟨[plainCls ⟨"Point", [("x", "int"), ("y", "int")], []⟩],
        [("x", .vInt 3), ("y", .vInt 4)]⟩ [.vInt 3, .vInt 4] rfl).2.2 5 (by decide)⟩

/-- C5: the generated equality returns `True` on instances of the identical
concrete class exactly when the field tuples agree positionally, returns
`False` on the same class with differing tuples, defers with `NotImplemented`
(modelled `none`) when the concrete classes differ, and is reflexive,
symmetric, and transitive on the `True` relation. -/
theorem c5_eq_semantics (a b c : Obj) (xs ys zs : List Value)
    (ha : fieldValues a = .ok xs) (hb : fieldValues b = .ok ys)
    (hc : fieldValues c = .ok zs) :
    (a.mro = b.mro → (datumEq a b = .ok (some true) ↔ xs = ys)) ∧
    (a.mro = b.mro → xs ≠ ys → datumEq a b = .ok (some false)) ∧
    (a.mro ≠ b.mro → datumEq a b = .ok none) ∧
    (datumEq a a = .ok (some true)) ∧
    (datumEq a b = .ok (some true) → datumEq b a = .ok (some true)) ∧
    (datumEq a b = .ok (some true) → datumEq b c = .ok (some true) →
      datumEq a c = .ok (some true)) := by
  have hmm : ∀ (u w : Obj) (us ws : List Value), fieldValues u = .ok us →
      fieldValues w = .ok ws → datumEq u w = .ok (some true) → u.mro = w.mro ∧ us = ws := by
    intro u w us ws hu hw h
    by_cases hm : u.mro = w.mro
    · have h2 := datumEq_of_vals u w us ws hu hw hm
      rw [h2] at h
      simp only [Except.ok.injEq, Option.some.injEq] at h
      exact ⟨hm, of_decide_eq_true h⟩
    · unfold datumEq at h
      rw [if_neg hm] at h
      simp at h
  refine ⟨?_, ?_, ?_, ?_, ?_, ?_⟩
  · intro hm
    rw [datumEq_of_vals a b xs ys ha hb hm]
    simp
  · intro hm hne
    rw [datumEq_of_vals a b xs ys ha hb hm, decide_eq_false hne]
  · intro hm
    unfold datumEq
    rw [if_neg hm]
  · rw [datumEq_of_vals a a xs xs ha ha rfl]
    simp
  · intro h
    obtain ⟨hm, he⟩ := hmm a b xs ys ha hb h
    rw [datumEq_of_vals b a ys xs hb ha hm.symm, he]
    simp
  · intro h1 h2
    obtain ⟨hm1, he1⟩ := hmm a b xs ys ha hb h1
    obtain ⟨hm2, he2⟩ := hmm b c ys zs hb hc h2
    rw [datumEq_of_vals a c xs zs ha hc (hm1.trans hm2), he1, he2]
    simp

/-- Witness for C5 at two equal `Point(1, 2)` instances and a differing
third. -/
theorem c5_eq_semantics_witness :
    datumEq ⟨[plainCls ⟨"Point", [("x", "int"), ("y", "int")], []⟩],
        [("x", .vInt 1), ("y", .vInt 2)]⟩
      ⟨[plainCls ⟨"Point", [("x", "int"), ("y", "int")], []⟩],
        [("x", .vInt 1), ("y", .vInt 2)]⟩ = .ok (some true) ∧
    datumEq ⟨[plainCls ⟨"Point", [("x", "int"), ("y", "int")], []⟩],
        [("x", .vInt 1), ("y", .vInt 2)]⟩
      ⟨[plainCls ⟨"Empty", [], []⟩], []⟩ = .ok none :=
  ⟨(c5_eq_semantics ⟨[plainCls ⟨"Point", [("x", "int"), ("y", "int")], []⟩],
        [("x", .vInt 1), ("y", .vInt 2)]⟩
      ⟨[plainCls ⟨"Point", [("x", "int"), ("y", "int")], []⟩],
        [("x", .vInt 1), ("y", .vInt 2)]⟩
      ⟨[plainCls ⟨"Point", [("x", "int"), ("y", "int")], []⟩],
        [("x", .vInt 1), ("y", .vInt 2)]⟩
      [.vInt 1, .vInt 2] [.vInt 1, .vInt 2] [.vInt 1, .vInt 2] rfl rfl rfl).2.2.2.1,
    (c5_eq_semantics ⟨[plainCls ⟨"Point", [("x", "int"), ("y", "int")], []⟩],
        [("x", .vInt 1), ("y", .vInt 2)]⟩
      ⟨[plainCls ⟨"Empty", [], []⟩], []⟩
      ⟨[plainCls ⟨"Empty", [], []⟩], []⟩
      [.vInt 1, .vInt 2] [] [] rfl rfl rfl).2.2.1 (by decide)⟩

/-- C6: on a frozen chain where every class-body value binding is a default
for an annotated name, writing or deleting any annotated field — including
default-carrying ones — through its public name unconditionally fails with
the `_frozen_error` message, which names the instance's concrete runtime
type. -/
theorem c6_frozen_immutable (r : RawCls) (rest : List RawCls) (f : Ident)
    (attrs : List (Ident × Value)) (v : Value)
    (hann : ∃ r2 ∈ r :: rest, f ∈ r2.anns.map Prod.fst)
    (hbody : ∀ r2 ∈ r :: rest, ∀ p ∈ r2.body, p.1 ∈ r2.anns.map Prod.fst) :
    instSetattr ⟨(r :: rest).map frozenMetaNew, attrs⟩ f v
      = .error (frozenErrorMsg r.name) ∧
    instDelattr ⟨(r :: rest).map frozenMetaNew, attrs⟩ f
      = .error (frozenErrorMsg r.name) ∧
    ∃ pre post, frozenErrorMsg r.name = pre ++ r.name ++ post := by
  have hprop : typeLookup ((r :: rest).map frozenMetaNew) f = some ClsAttr.prop := by
    refine typeLookup_frozen_prop_of (r :: rest) f hann ?_
    intro r2 hr2 hs
    rcases List.mem_map.mp ((alookup_isSome_iff _ _).mp hs) with ⟨p, hp, rfl⟩
    exact hbody r2 hr2 p hp
  refine ⟨?_, ?_, "can\x27t set/del attr on FrozenDatum type \x27", "\x27", rfl⟩
  · unfold instSetattr
    rw [hprop]
    rfl
  · unfold instDelattr
    rw [hprop]
    rfl

/-- Witness for C6 on `FrozenPoint(x: int, y: int = 0)` after construction:
setting or deleting the default-carrying field `y` errors, naming the type. -/
theorem c6_frozen_immutable_witness :
    instSetattr ⟨[frozenMetaNew ⟨"FrozenPoint", [("x", "int"), ("y", "int")],
        [("y", .vInt 0)]⟩], [("_cluegen_prop_x", .vInt 1), ("_cluegen_prop_y", .vInt 2)]⟩
      "y" (.vInt 5) = .error (frozenErrorMsg "FrozenPoint") ∧
    instDelattr ⟨[frozenMetaNew ⟨"FrozenPoint", [("x", "int"), ("y", "int")],
        [("y", .vInt 0)]⟩], [("_cluegen_prop_x", .vInt 1), ("_cluegen_prop_y", .vInt 2)]⟩
      "y" = .error (frozenErrorMsg "FrozenPoint") :=
  ⟨(c6_frozen_immutable ⟨"FrozenPoint", [("x", "int"), ("y", "int")], [("y", .vInt 0)]⟩ []
      "y" [("_cluegen_prop_x", .vInt 1), ("_cluegen_prop_y", .vInt 2)] (.vInt 5)
      (by decide) (by decide)).1,
    (c6_frozen_immutable ⟨"FrozenPoint", [("x", "int"), ("y", "int")], [("y", .vInt 0)]⟩ []
      "y" [("_cluegen_prop_x", .vInt 1), ("_cluegen_prop_y", .vInt 2)] (.vInt 5)
      (by decide) (by decide)).2.1⟩

/-- C7: the frozen-variant hash is a function of the tuple of field values in
field order, so whenever the generated equality returns `True` the hashes
agree; and `__hash__` resolution along the mro leaves a `Datum` subclass with
the disabled slot (`Datum` defines `__eq__` but no `__hash__`, so the host
sets `__hash__ = None` — not hashable), while a `FrozenDatum` subclass
resolves to `FrozenDatum`'s generated `__hash__`. -/
theorem c7_hash_consistency (a b : Obj) (xs ys : List Value)
    (ha : fieldValues a = .ok xs) (hb : fieldValues b = .ok ys) :
    (datumEq a b = .ok (some true) → frozenHash a = frozenHash b) ∧
    resolvedHash pointDatumHashMro = some HashSlot.disabled ∧
    resolvedHash pointFrozenHashMro = some HashSlot.defined := by
  refine ⟨?_, by decide, by decide⟩
  intro h
  by_cases hm : a.mro = b.mro
  · have h2 := datumEq_of_vals a b xs ys ha hb hm
    rw [h2] at h
    simp only [Except.ok.injEq, Option.some.injEq] at h
    have hxy : xs = ys := of_decide_eq_true h
    unfold frozenHash
    rw [ha, hb, hxy]
  · unfold datumEq at h
    rw [if_neg hm] at h
    simp at h

/-- Witness for C7: two equal `FrozenPoint(1, 2)` instances hash equal. -/
theorem c7_hash_consistency_witness :
    frozenHash ⟨[frozenMetaNew ⟨"FrozenPoint", [("x", "int"), ("y", "int")], [("y", .vInt 0)]⟩],
        [("_cluegen_prop_x", .vInt 1), ("_cluegen_prop_y", .vInt 2)]⟩
      = frozenHash ⟨[frozenMetaNew ⟨"FrozenPoint", [("x", "int"), ("y", "int")],
          [("y", .vInt 0)]⟩],
        [("_cluegen_prop_x", .vInt 1), ("_cluegen_prop_y", .vInt 2)]⟩ :=
  (c7_hash_consistency ⟨[frozenMetaNew ⟨"FrozenPoint", [("x", "int"), ("y", "int")],
        [("y", .vInt 0)]⟩], [("_cluegen_prop_x", .vInt 1), ("_cluegen_prop_y", .vInt 2)]⟩
      ⟨[frozenMetaNew ⟨"FrozenPoint", [("x", "int"), ("y", "int")], [("y", .vInt 0)]⟩],
        [("_cluegen_prop_x", .vInt 1), ("_cluegen_prop_y", .vInt 2)]⟩
      [.vInt 1, .vInt 2] [.vInt 1, .vInt 2] rfl rfl).1 rfl

/-- C8 counterexample: the descriptor takes no lock between reading the class
dict and installing the synthesized method, so two racing first accesses can
both observe the method as missing and both run synthesis: after the
interleaving check1-check2-install1-install2 both accesses have completed and
the instrumented synthesis counter reads `2`, not `1`. -/
theorem c8_concurrent_counterexample :
    (runSched [true, false, true, false] raceInit).t1 = TPhase.fin ∧
    (runSched [true, false, true, false] raceInit).t2 = TPhase.fin ∧
    (runSched [true, false, true, false] raceInit).cell.counter = 2 ∧
    (2 : Nat) ≠ 1 :=
  ⟨rfl, rfl, rfl, by decide⟩

/-- C8 (amended): under sequential access, synthesis for a `(type, operation)`
pair executes exactly once over any number `n ≥ 1` of accesses — the first
access installs the implementation on the exact type and every later access
finds it installed and bypasses the generator unchanged; only concurrent
first accesses (no lock is taken) can synthesize more than once. -/
theorem c8_sequential_synthesis_once (n : Nat) (h : 1 ≤ n) :
    (genAccess^[n] ⟨false, 0⟩).installed = true ∧
    (genAccess^[n] ⟨false, 0⟩).counter = 1 ∧
    (∀ s : GenCell, s.installed = true → genAccess s = s) := by
  have hfix : ∀ m, genAccess^[m] (⟨true, 1⟩ : GenCell) = ⟨true, 1⟩ := by
    intro m
    induction m with
    | zero => rfl
    | succ m ih =>
      rw [Function.iterate_succ_apply, show genAccess ⟨true, 1⟩ = ⟨true, 1⟩ from rfl, ih]
  obtain ⟨m, rfl⟩ : ∃ m, n = m + 1 := ⟨n - 1, by omega⟩
  rw [Function.iterate_succ_apply, show genAccess ⟨false, 0⟩ = ⟨true, 1⟩ from rfl, hfix]
  exact ⟨rfl, rfl, fun s hs => by unfold genAccess; rw [if_pos hs]⟩

/-- Witness for C8 (amended) after two sequential accesses. -/
theorem c8_sequential_synthesis_once_witness :
    (genAccess^[2] ⟨false, 0⟩).installed = true ∧ (genAccess^[2] ⟨false, 0⟩).counter = 1 :=
  ⟨(c8_sequential_synthesis_once 2 (by decide)).1, (c8_sequential_synthesis_once 2 (by decide)).2.1⟩

/-- C10 counterexample: with the string default `s: str = "3"`, the `str`
interpolation makes the generated source read `s=3`, an integer literal —
not a bare identifier — and the first constructor use succeeds, producing an
instance whose field holds the integer `3`, a value not equal to the declared
string default `"3"`.  So it is not the case that every string default yields
a bare identifier and a failing first use. -/
theorem c10_numeric_string_counterexample :
    frozenGenInitParams [frozenMetaNew ⟨"F", [("s", "str")], [("s", .vStr "3")]⟩]
      = [⟨"s", some (.litInt 3)⟩] ∧
    frozenConstruct [frozenMetaNew ⟨"F", [("s", "str")], [("s", .vStr "3")]⟩] []
      = .ok ⟨[frozenMetaNew ⟨"F", [("s", "str")], [("s", .vStr "3")]⟩],
          [("_cluegen_prop_s", .vInt 3)]⟩ ∧
    instGetattr ⟨[frozenMetaNew ⟨"F", [("s", "str")], [("s", .vStr "3")]⟩],
        [("_cluegen_prop_s", .vInt 3)]⟩ "s" = .ok (.vInt 3) ∧
    Value.vInt 3 ≠ Value.vStr "3" :=
  ⟨rfl, rfl, rfl, by decide⟩

/-- C10 (amended): the frozen constructor generator interpolates defaults by
plain string conversion, so the generated parameter default is correct only
when that text re-evaluates to an equal value.  For every identifier-like
string default that names nothing in the `exec` environment (nonempty, all
ASCII letters, neither a builtin name nor a keyword — e.g. `"abc"`), the
generated source carries a bare identifier as the default and every first
attempt to use the constructor fails with `NameError`.  String defaults whose
text reads as a literal (e.g. `"3"`) or as a builtin name (e.g. `"len"`,
resolved through the `__builtins__` that `exec` injects) instead construct
successfully with a wrong, non-equal default value. -/
theorem c10_str_default_bare_name (s : String)
    (hne : s.data ≠ []) (halpha : ∀ c ∈ s.data, isLetterCh c = true)
    (hnb : ¬ s ∈ builtinNames) (_hnk : ¬ s ∈ pyKeywords) :
    (frozenGenInitParams [frozenMetaNew ⟨"F", [("s", "str")], [("s", .vStr s)]⟩]
      = [⟨"s", some (.ident s)⟩] ∧
    (∀ args, frozenConstruct [frozenMetaNew ⟨"F", [("s", "str")], [("s", .vStr s)]⟩] args
      = .error "NameError: free name in a generated default")) ∧
    frozenConstruct [frozenMetaNew ⟨"F", [("s", "str")], [("s", .vStr "len")]⟩] []
      = .ok ⟨[frozenMetaNew ⟨"F", [("s", "str")], [("s", .vStr "len")]⟩],
          [("_cluegen_prop_s", .vBuiltin "len")]⟩ ∧
    Value.vBuiltin "len" ≠ Value.vStr "len" := by
  have hps : frozenGenInitParams [frozenMetaNew ⟨"F", [("s", "str")], [("s", .vStr s)]⟩]
      = [⟨"s", some (.ident s)⟩] := by
    show [(⟨"s", some (strExpr (.vStr s))⟩ : Param)] = [⟨"s", some (.ident s)⟩]
    rw [strExpr_letters s hne halpha]
  have hev : evalPyExpr (.ident s) = none := by
    show (if s ∈ builtinNames then some (Value.vBuiltin s) else none) = none
    rw [if_neg hnb]
  refine ⟨⟨hps, ?_⟩, rfl, by decide⟩
  intro args
  unfold frozenConstruct constructWith
  rw [hps]
  have hwo : ¬ defaultsWellOrdered [(⟨"s", some (.ident s)⟩ : Param)] = false := by
    intro hc
    have hb2 : (true : Bool) = false := hc
    cases hb2
  rw [if_neg hwo]
  have hep : evalParams [(⟨"s", some (.ident s)⟩ : Param)] = none := by
    show (match evalPyExpr (PyExpr.ident s) with
      | some v => (evalParams []).map (fun r => (("s" : Ident), some v) :: r)
      | none => none) = none
    rw [hev]
  rw [hep]

/-- Witness for C10 (amended) at the default `s: str = "abc"`: the generated
default is the bare identifier `abc` and constructing fails with
`NameError`. -/
theorem c10_str_default_bare_name_witness :
    frozenGenInitParams [frozenMetaNew ⟨"F", [("s", "str")], [("s", .vStr "abc")]⟩]
      = [⟨"s", some (.ident "abc")⟩] ∧
    frozenConstruct [frozenMetaNew ⟨"F", [("s", "str")], [("s", .vStr "abc")]⟩] []
      = .error "NameError: free name in a generated default" :=
  ⟨(c10_str_default_bare_name "abc" (by decide) (by decide) (by decide) (by decide)).1.1,
    (c10_str_default_bare_name "abc" (by decide) (by decide) (by decide) (by decide)).1.2 []⟩
